import Mathlib

/-!
Verification of the lease-analysis backend's core pipeline: a shallow
embedding in Lean 4 of the pure computational content of
`src/services/ocr_service.py`, `src/utils/text_parser.py`,
`src/routes/lease_routes.py` and `src/store.py`.

Modelling conventions:
  * Python strings are `List Char`; `len`, slicing, `strip`, `lower`,
    substring tests are embedded as explicit list functions.
  * Python `datetime` instants are `Int` timestamps (seconds); the 24-hour
    window `timedelta(hours=24)` is the constant `86400`.
  * `json.loads` is embedded as a recursive-descent whole-string parser
    over a JSON value type `JVal`.  JSON numbers are modelled as integers
    (floating-point values are outside the scope of the embedding), and
    string escape handling covers the standard single-character escapes
    and non-surrogate `\uXXXX`; Python's `str.isdigit`/regex `\d` and
    `str.lower` are modelled at ASCII level, which is exact for the
    inputs the theorems quantify over.
  * Calls into external collaborators (the OpenAI transport, the `re`
    module applied to the fixed `REGEX_PATTERNS` table in
    `regex_extract_fallback`, the configuration value
    `settings.DEEPSEEK_API_KEY`, the wall clock) enter the embedded
    functions as explicit arguments.  Regexes that the repository's own
    logic depends on (`normalize_date`, the date-like filter in
    `filter_and_extract_high_risk_clauses`, the brace-balanced scan in
    `extract_json_from_llm_response`) are embedded as equivalent
    deterministic matchers, with the backtracking analysis recorded in
    comments at each definition.
-/

namespace Spec2Proof

/-! ## Basic string machinery (Python `str` operations on `List Char`) -/

/-- Characters Python's default `str.strip()` removes (ASCII whitespace). -/
def isPyWs (c : Char) : Bool :=
  c = ' ' || c = '\t' || c = '\n' || c = '\r' || c = '\x0b' || c = '\x0c'

/-- Python `s.lstrip()`. -/
def stripL (s : List Char) : List Char := s.dropWhile isPyWs

/-- Python `s.rstrip()`. -/
def stripR (s : List Char) : List Char := (s.reverse.dropWhile isPyWs).reverse

/-- Python `s.strip()`. -/
def pyStrip (s : List Char) : List Char := stripR (stripL s)

/-- Python `s.startswith(p)`: `leadsWith p s` is true when `p` is a prefix of `s`. -/
def leadsWith : List Char → List Char → Bool
  | [], _ => true
  | _ :: _, [] => false
  | p :: ps, c :: cs => p = c && leadsWith ps cs

/-- Python `s.endswith(p)`. -/
def trailsWith (p s : List Char) : Bool := leadsWith p.reverse s.reverse

/-- Python `p in s` (substring containment). -/
def hasSub (p : List Char) : List Char → Bool
  | [] => leadsWith p []
  | c :: cs => leadsWith p (c :: cs) || hasSub p cs

/-- Python `s.lower()` (ASCII case folding, which covers every keyword the
source compares against). -/
def toLowerL (s : List Char) : List Char := s.map Char.toLower

/-- Index of the first occurrence of the character `c` (Python `s.find(c)`). -/
def findCh (c : Char) : List Char → Option Nat
  | [] => none
  | x :: xs => if x = c then some 0 else (findCh c xs).map (· + 1)

/-- Index of the last occurrence of the pattern `p` (Python `s.rfind(p)`):
the greatest start position at which `p` is a prefix of the remainder. -/
def rfindSub (p s : List Char) : Option Nat :=
  ((List.range (s.length + 1)).filter fun i => leadsWith p (s.drop i)).getLast?

/-! ## Clause filter and risk escalator
(`src/utils/text_parser.py`, `filter_and_extract_high_risk_clauses`) -/

/-- One clause as the filter reads it: the dict fields
`clause.get("clause_text", "")` and `clause.get("risk_level", "")`. -/
structure PClause where
  clause_text : List Char
  risk_level : List Char
deriving DecidableEq, Repr

/-- The fixed bilingual money/termination keyword set of
`filter_and_extract_high_risk_clauses` (text_parser.py lines 294-315).
The source holds it in a Python `set`; only membership is used, so a list
is an equivalent model. -/
def money_termination_keywords : List (List Char) :=
  [("rent").toList, ("fee").toList, ("deposit").toList,
   ("termination").toList, ("terminate").toList, ("penalty").toList,
   ("charge").toList, ("payment").toList, ("late").toList,
   ("evict").toList, ("break").toList, ("cancel").toList,
   ("租金").toList, ("费用").toList, ("押金").toList, ("终止").toList,
   ("违约").toList, ("罚款").toList, ("滞纳金").toList, ("解约").toList]

/-- The currency test of the filter:
`"$" in text or "€" in text or "£" in text or "¥" in text`
(single-character substring search = membership). -/
def hasCurrencyCh (text : List Char) : Bool :=
  text.any fun c => c = '$' || c = '€' || c = '£' || c = '¥'

/-- Remainders of `s` after consuming one or two leading ASCII digits
(the possible continuations of the regex piece `\d{1,2}`). -/
def afterOneOrTwoDigits (s : List Char) : List (List Char) :=
  match s with
  | [] => []
  | c :: rest =>
    if c.isDigit then
      rest :: (match rest with
        | c2 :: r2 => if c2.isDigit then [r2] else []
        | [] => [])
    else []

/-- Whether `re.search(r"\d{1,2}[/ or -]\d{1,2}[/ or -]\d{2,4}", text)` matches at
the START of `s`: some split into 1-2 digits, a separator, 1-2 digits, a
separator and at least 2 further digits exists (`\d{2,4}` succeeds exactly
when two digits follow, since nothing comes after it in the pattern). -/
def dateAtStart (s : List Char) : Bool :=
  (afterOneOrTwoDigits s).any fun s1 =>
    match s1 with
    | c :: r1 =>
      (c = '/' || c = '-') &&
      ((afterOneOrTwoDigits r1).any fun s2 =>
        match s2 with
        | c2 :: r2 =>
          (c2 = '/' || c2 = '-') &&
          (match r2 with
           | a :: b :: _ => a.isDigit && b.isDigit
           | _ => false)
        | [] => false)
    | [] => false

/-- `bool(re.search(r"\d{1,2}[/ or -]\d{1,2}[/ or -]\d{2,4}", text))`: the pattern
has no anchors, so a search match exists iff it matches at some suffix. -/
def dateSearch : List Char → Bool
  | [] => false
  | c :: cs => dateAtStart (c :: cs) || dateSearch cs

/-- The noise filter of `filter_and_extract_high_risk_clauses` (lines
325-331): a clause under 15 characters survives only with a digit, a
currency symbol or a date-like substring. -/
def keepClause (c : PClause) : Bool :=
  if c.clause_text.length < 15 then
    c.clause_text.any Char.isDigit || hasCurrencyCh c.clause_text ||
      dateSearch c.clause_text
  else true

/-- The escalation test (lines 335-339): highest label `"danger"`, or middle
label `"caution"` together with a keyword hit
(`kw in text_lower or kw in text`). -/
def escalateClause (c : PClause) : Bool :=
  c.risk_level = ("danger").toList ||
    (c.risk_level = ("caution").toList &&
      money_termination_keywords.any fun kw =>
        hasSub kw (toLowerL c.clause_text) || hasSub kw c.clause_text)

/-- `filter_and_extract_high_risk_clauses(clauses)` (lines 288-341): one
pass appending each kept clause to `filtered` and each escalated kept
clause to `high_risk`, returning `(filtered, high_risk)`. -/
def filter_and_extract_high_risk_clauses : List PClause → List PClause × List PClause
  | [] => ([], [])
  | c :: rest =>
    let p := filter_and_extract_high_risk_clauses rest
    if keepClause c then
      (c :: p.1, if escalateClause c then c :: p.2 else p.2)
    else p

/-! ## Decimal digits (used by the date formatter and the JSON embedding) -/

/-- Little-endian base-10 digit list of `n`, with explicit fuel (the first
argument); with fuel ≥ n this agrees with `Nat.digits 10 n`. -/
def natDigitsRev : Nat → Nat → List Nat
  | 0, _ => []
  | _ + 1, 0 => []
  | fuel + 1, n + 1 => (n + 1) % 10 :: natDigitsRev fuel ((n + 1) / 10)

/-- Decimal rendering of a natural number (Python `str(n)` for `n ≥ 0`). -/
def natChars (n : Nat) : List Char :=
  if n = 0 then ['0']
  else ((natDigitsRev n n).reverse.map fun d => Char.ofNat (48 + d))

/-- Decimal rendering of a Python int. -/
def intChars (i : Int) : List Char :=
  if i < 0 then '-' :: natChars i.natAbs else natChars i.toNat

/-- Numeric value of a list of ASCII digit characters (Horner evaluation,
Python `int(s)` on a digit string). -/
def digitsVal (l : List Char) : Nat :=
  l.foldl (fun a c => 10 * a + (c.toNat - 48)) 0

/-- Python `f"{n:02d}"` for `0 ≤ n < 100`. -/
def pad2 (n : Nat) : List Char :=
  if n < 10 then '0' :: natChars n else natChars n

/-! ## Date normalization (`src/services/ocr_service.py`, `normalize_date`)

Each of the three `re.match` calls is anchored at the start of the string
and unanchored at the end.  Every quantified piece is followed either by a
character class disjoint from it or by nothing, so the backtracking search
is deterministic and each group equals a maximal run, except the bounded
digit groups `\d{1,2}` / `\d{2,4}` / `\d{4}`, where a shorter take leaves a
digit in front of the required separator (or required digit count) and
fails; those reduce to conditions on the length of the maximal digit run,
spelled out per pattern below. -/

/-- `MONTH_MAP` (ocr_service.py lines 65-89). -/
def MONTH_MAP : List (List Char × Nat) :=
  [(("january").toList, 1), (("february").toList, 2), (("march").toList, 3),
   (("april").toList, 4), (("may").toList, 5), (("june").toList, 6),
   (("july").toList, 7), (("august").toList, 8), (("september").toList, 9),
   (("october").toList, 10), (("november").toList, 11), (("december").toList, 12),
   (("jan").toList, 1), (("feb").toList, 2), (("mar").toList, 3),
   (("apr").toList, 4), (("jun").toList, 6), (("jul").toList, 7),
   (("aug").toList, 8), (("sep").toList, 9), (("oct").toList, 10),
   (("nov").toList, 11), (("dec").toList, 12)]

/-- `MONTH_MAP.get(name, 0)`. -/
def monthLookup (name : List Char) : Nat :=
  match MONTH_MAP.find? fun e => e.1 = name with
  | some e => e.2
  | none => 0

/-- The maximal leading digit run of `s` paired with the rest. -/
def digitRun (s : List Char) : List Char × List Char :=
  (s.takeWhile Char.isDigit, s.dropWhile Char.isDigit)

/-- Match `re.match(r"([A-Za-z]+)\s+(\d{1,2}),?\s+(\d{4})", s)`, returning
the three groups.  `[A-Za-z]+` and each `\s+` are maximal runs (the
following class is disjoint); `(\d{1,2})` succeeds iff the maximal digit
run has length 1 or 2 (a longer run leaves a digit where `,?\s` must
match, under either quantifier choice, and `,?` must take a present comma
since `\s` cannot); `(\d{4})` needs a 4-digit prefix of the remaining run
and is followed by nothing. -/
def dateP1 (s : List Char) : Option (List Char × List Char × List Char) :=
  let letters := s.takeWhile Char.isAlpha
  let r1 := s.dropWhile Char.isAlpha
  if letters.isEmpty then none
  else
    let ws1 := r1.takeWhile isPyWs
    let r2 := r1.dropWhile isPyWs
    if ws1.isEmpty then none
    else
      let day := (digitRun r2).1
      let r3 := (digitRun r2).2
      if day.length = 0 || day.length > 2 then none
      else
        let r4 := match r3 with
          | ',' :: t => t
          | t => t
        let ws2 := r4.takeWhile isPyWs
        let r5 := r4.dropWhile isPyWs
        if ws2.isEmpty then none
        else
          let yr := (digitRun r5).1
          if yr.length < 4 then none
          else some (letters, day, yr.take 4)

/-- Match `re.match(r"(\d{1,2})[/ or -](\d{1,2})[/ or -](\d{2,4})", s)`.
Both `(\d{1,2})` groups succeed iff their maximal digit run has length 1
or 2 (any shorter take leaves a digit in front of the separator);
`(\d{2,4})`, followed by nothing, takes up to 4 digits greedily and needs
at least 2. -/
def dateP2 (s : List Char) : Option (List Char × List Char × List Char) :=
  let m := (digitRun s).1
  let r1 := (digitRun s).2
  if m.length = 0 || m.length > 2 then none
  else match r1 with
    | c :: r2 =>
      if c = '/' || c = '-' then
        let d := (digitRun r2).1
        let r3 := (digitRun r2).2
        if d.length = 0 || d.length > 2 then none
        else match r3 with
          | c2 :: r4 =>
            if c2 = '/' || c2 = '-' then
              let y := (digitRun r4).1
              if y.length < 2 then none else some (m, d, y.take 4)
            else none
          | [] => none
      else none
    | [] => none

/-- Match `re.match(r"(\d{4})[/ or -](\d{1,2})[/ or -](\d{1,2})", s)`.
`(\d{4})` is a fixed count followed by a separator; the middle `(\d{1,2})`
behaves as in `dateP2`; the final `(\d{1,2})`, followed by nothing, takes
up to 2 digits greedily. -/
def dateP3 (s : List Char) : Option (List Char × List Char × List Char) :=
  let yrun := (digitRun s).1
  if yrun.length < 4 then none
  else
    let y := s.take 4
    match s.drop 4 with
    | c :: r1 =>
      if c = '/' || c = '-' then
        let m := (digitRun r1).1
        let r2 := (digitRun r1).2
        if m.length = 0 || m.length > 2 then none
        else match r2 with
          | c2 :: r3 =>
            if c2 = '/' || c2 = '-' then
              let d := (digitRun r3).1
              if d.length = 0 then none else some (y, m, d.take 2)
            else none
          | [] => none
      else none
    | [] => none

/-- `normalize_date` (ocr_service.py lines 99-123).  Empty input returns
`""`; otherwise the input is stripped, the three patterns are tried in
order (the first falls through when the month name is unknown), and the
stripped input is returned when none produces a result. -/
def normalize_date (value : List Char) : List Char :=
  if value.isEmpty then []
  else
    let v := pyStrip value
    let viaP2P3 : List Char :=
      match dateP2 v with
      | some (m, d, y) =>
        let y2 := if y.length = 2 then '2' :: '0' :: y else y
        y2 ++ '-' :: (pad2 (digitsVal m) ++ '-' :: pad2 (digitsVal d))
      | none =>
        match dateP3 v with
        | some (y, m, d) =>
          y ++ '-' :: (pad2 (digitsVal m) ++ '-' :: pad2 (digitsVal d))
        | none => v
    match dateP1 v with
    | some (name, day, yr) =>
      let month := monthLookup (toLowerL name)
      if month ≠ 0 then yr ++ '-' :: (pad2 month ++ '-' :: pad2 (digitsVal day))
      else viaP2P3
    | none => viaP2P3

/-! ## Access gate (`src/routes/lease_routes.py`, `check_user_access`;
`src/store.py` limits)

Timestamps are `Int` seconds; `access["expires_at"]` is stored parsed.
`days_remaining` is `timedelta.days` of `expires_at - now`, i.e. floor
division by 86400 (only taken when the difference is positive). -/

def FULL_ANALYSIS_LEASE_LIMIT : Nat := 5

/-- One value of `USER_ACCESS_STORE`: `{"expires_at": ..., "analysis_ids": [...]}`. -/
structure AccessRecord where
  expires_at : Int
  analysis_ids : List String
deriving DecidableEq, Repr

/-- The dict `check_user_access` returns; absent keys are `none`. -/
structure AccessResult where
  has_access : Bool
  reason : Option String
  expires_at : Option Int
  days_remaining : Option Int
  analyses_count : Option Nat
  remaining_analyses : Option Nat
deriving DecidableEq, Repr

/-- `check_user_access(user_id)` (lease_routes.py lines 455-489), with the
store's entry for `user_id` (absent = `none`) and the clock passed in. -/
def check_user_access (entry : Option AccessRecord) (now : Int) : AccessResult :=
  match entry with
  | none => ⟨false, none, none, none, none, none⟩
  | some access =>
    if now ≥ access.expires_at then ⟨false, none, none, none, none, none⟩
    else
      let analyses_count := access.analysis_ids.length
      if analyses_count ≥ FULL_ANALYSIS_LEASE_LIMIT then
        ⟨false, some "lease_limit_reached", none, none, none, none⟩
      else
        ⟨true, none, some access.expires_at,
         some ((access.expires_at - now) / 86400), some analyses_count,
         some (FULL_ANALYSIS_LEASE_LIMIT - analyses_count)⟩

/-- The successful-analysis bookkeeping (lease_routes.py lines 625-628):
the new analysis id is appended to the user's `analysis_ids` unless
already present. -/
def recordAnalysisId (ids : List String) (aid : String) : List String :=
  if aid ∈ ids then ids else ids ++ [aid]

/-! ## Rate limiter (`src/routes/lease_routes.py`, `check_rate_limit`;
`src/store.py` limits)

The two stores `QUICK_ANALYZE_RATE_LIMITS` / `IP_RATE_LIMITS` are modelled
as total maps `String → List Int`, an absent key being the empty list:
the source reads absent keys through `.get(key, [])`, prunes only present
keys (pruning an absent key is a no-op on the empty list) and initialises
a key to `[]` before its first append, so the two representations are
observationally identical. -/

def QUICK_ANALYZE_WINDOW : Int := 86400

def QUICK_ANALYZE_USER_LIMIT : Nat := 3

def QUICK_ANALYZE_IP_LIMIT : Nat := 20

/-- Pointwise map update. -/
def mapSet (m : String → List Int) (k : String) (v : List Int) : String → List Int :=
  fun x => if x = k then v else m x

/-- `check_rate_limit(user_id, ip_address)` (lease_routes.py lines
938-984), with the two stores and the clock passed in and the updated
stores returned:
`((allowed, remaining), user_store, ip_store)`. -/
def check_rate_limit (um im : String → List Int) (user_id ip_address : String)
    (now : Int) : (Bool × Nat) × (String → List Int) × (String → List Int) :=
  let window_start := now - QUICK_ANALYZE_WINDOW
  let um1 := mapSet um user_id ((um user_id).filter fun ts => window_start < ts)
  let im1 := mapSet im ip_address ((im ip_address).filter fun ts => window_start < ts)
  let user_requests := um1 user_id
  if user_requests.length ≥ QUICK_ANALYZE_USER_LIMIT then
    ((false, 0), um1, im1)
  else
    let ip_requests := im1 ip_address
    if ip_requests.length ≥ QUICK_ANALYZE_IP_LIMIT then
      ((false, QUICK_ANALYZE_USER_LIMIT - user_requests.length), um1, im1)
    else
      let um2 := mapSet um1 user_id (user_requests ++ [now])
      let im2 := mapSet im1 ip_address (ip_requests ++ [now])
      ((true, QUICK_ANALYZE_USER_LIMIT - (um2 user_id).length), um2, im2)

/-- Run a sequence of rate-limit checks `(user, ip, time)` from given
stores, collecting each check's `(allowed, remaining)`. -/
def runRateChecks (um im : String → List Int) :
    List (String × String × Int) → List (Bool × Nat)
  | [] => []
  | (u, i, t) :: rest =>
    let r := check_rate_limit um im u i t
    r.1 :: runRateChecks r.2.1 r.2.2 rest

/-- Timestamps of a key's stored list that lie inside the trailing window
ending at `now`. -/
def inWindowCount (l : List Int) (now : Int) : Nat :=
  (l.filter fun ts => now - QUICK_ANALYZE_WINDOW < ts).length

/-! ## JSON values and `json.loads`
(the parser embeds Python's `json.loads` in strict mode: whole-string
parse, raw control characters rejected inside strings; numbers are
modelled as integers — see the header note). -/

/-- A JSON value as `json.loads` returns it (numbers restricted to
integers; object fields kept in textual order, duplicate keys resolved by
`jGet` below the way a Python dict resolves them, last occurrence wins). -/
inductive JVal where
  | jnull : JVal
  | jbool : Bool → JVal
  | jint : Int → JVal
  | jstr : List Char → JVal
  | jarr : List JVal → JVal
  | jobj : List (List Char × JVal) → JVal

/-- JSON insignificant whitespace (also what Python's decoder skips). -/
def isJsonWs (c : Char) : Bool :=
  c = ' ' || c = '\t' || c = '\n' || c = '\r'

def skipWs (s : List Char) : List Char := s.dropWhile isJsonWs

/-- Hex digit value. -/
def hexVal (c : Char) : Option Nat :=
  if c.isDigit then some (c.toNat - 48)
  else if 'a' ≤ c && c ≤ 'f' then some (c.toNat - 87)
  else if 'A' ≤ c && c ≤ 'F' then some (c.toNat - 55)
  else none

/-- String body parser, positioned after the opening quote: returns the
decoded characters and the input after the closing quote.  Standard
escapes and non-surrogate `\uXXXX` are decoded; bare control characters
are rejected (strict mode). -/
def parseStrBody : List Char → Option (List Char × List Char)
  | [] => none
  | c :: rest =>
    if c = '"' then some ([], rest)
    else if c = '\\' then
      match rest with
      | [] => none
      | e :: r2 =>
        let esc : Option Char :=
          if e = '"' then some '"' else if e = '\\' then some '\\'
          else if e = '/' then some '/' else if e = 'b' then some '\x08'
          else if e = 'f' then some '\x0c' else if e = 'n' then some '\n'
          else if e = 'r' then some '\r' else if e = 't' then some '\t'
          else none
        match esc with
        | some ch => (parseStrBody r2).map fun p => (ch :: p.1, p.2)
        | none =>
          if e = 'u' then
            match r2 with
            | h1 :: h2 :: h3 :: h4 :: r3 =>
              match hexVal h1, hexVal h2, hexVal h3, hexVal h4 with
              | some a, some b, some c3, some d =>
                let n := ((a * 16 + b) * 16 + c3) * 16 + d
                if n < 55296 || 57343 < n then
                  (parseStrBody r3).map fun p => (Char.ofNat n :: p.1, p.2)
                else none
              | _, _, _, _ => none
            | _ => none
          else none
    else if c.toNat < 32 then none
    else (parseStrBody rest).map fun p => (c :: p.1, p.2)

/-- Unsigned integer token: `0` alone, or a nonzero digit followed by the
maximal digit run (the JSON number grammar restricted to integers). -/
def parseNatTok : List Char → Option (Nat × List Char)
  | [] => none
  | c :: rest =>
    if c = '0' then some (0, rest)
    else if c.isDigit then
      some (digitsVal ((c :: rest).takeWhile Char.isDigit),
            (c :: rest).dropWhile Char.isDigit)
    else none

/-- Scalar token at the head of the input: the three keyword literals,
else an unsigned number. -/
def parseScalarTok (s : List Char) : Option (JVal × List Char) :=
  if leadsWith ['t', 'r', 'u', 'e'] s then some (JVal.jbool true, s.drop 4)
  else if leadsWith ['f', 'a', 'l', 's', 'e'] s then some (JVal.jbool false, s.drop 5)
  else if leadsWith ['n', 'u', 'l', 'l'] s then some (JVal.jnull, s.drop 4)
  else
    match s with
    | c :: r =>
      if c.isDigit then (parseNatTok (c :: r)).map fun p => (JVal.jint (p.1 : Int), p.2)
      else none
    | [] => none

mutual

/-- Value parser with fuel; `parseWhole` supplies fuel ample for any
input of the given length. -/
def parseVal : Nat → List Char → Option (JVal × List Char)
  | 0, _ => none
  | fuel + 1, s =>
    match skipWs s with
    | [] => none
    | c :: r =>
      if c = '{' then parseObjBody fuel r
      else if c = '[' then parseArrBody fuel r
      else if c = '"' then (parseStrBody r).map fun p => (JVal.jstr p.1, p.2)
      else if c = '-' then (parseNatTok r).map fun p => (JVal.jint (-(p.1 : Int)), p.2)
      else parseScalarTok (c :: r)

/-- Object parser, positioned after `{`. -/
def parseObjBody : Nat → List Char → Option (JVal × List Char)
  | 0, _ => none
  | fuel + 1, s =>
    match skipWs s with
    | [] => none
    | c :: r =>
      if c = '}' then some (JVal.jobj [], r)
      else (parseMembers fuel (c :: r)).map fun p => (JVal.jobj p.1, p.2)

/-- Nonempty member list of an object. -/
def parseMembers : Nat → List Char → Option (List (List Char × JVal) × List Char)
  | 0, _ => none
  | fuel + 1, s =>
    match skipWs s with
    | '"' :: r =>
      match parseStrBody r with
      | none => none
      | some (k, r2) =>
        match skipWs r2 with
        | ':' :: r3 =>
          match parseVal fuel r3 with
          | none => none
          | some (v, r4) =>
            match skipWs r4 with
            | ',' :: r5 => (parseMembers fuel r5).map fun p => ((k, v) :: p.1, p.2)
            | '}' :: r5 => some ([(k, v)], r5)
            | _ => none
        | _ => none
    | _ => none

/-- Array parser, positioned after `[`. -/
def parseArrBody : Nat → List Char → Option (JVal × List Char)
  | 0, _ => none
  | fuel + 1, s =>
    match skipWs s with
    | [] => none
    | c :: r =>
      if c = ']' then some (JVal.jarr [], r)
      else (parseElems fuel (c :: r)).map fun p => (JVal.jarr p.1, p.2)

/-- Nonempty element list of an array. -/
def parseElems : Nat → List Char → Option (List JVal × List Char)
  | 0, _ => none
  | fuel + 1, s =>
    match parseVal fuel s with
    | none => none
    | some (v, r) =>
      match skipWs r with
      | ',' :: r2 => (parseElems fuel r2).map fun p => (v :: p.1, p.2)
      | ']' :: r2 => some ([v], r2)
      | _ => none

end

/-- `json.loads(s)`: parse one value and require only whitespace after it.
Every chain of three recursive calls of the parser consumes at least one
character, so `3*len+3` fuel never runs out on an accepted input. -/
def parseWhole (s : List Char) : Option JVal :=
  match parseVal (3 * s.length + 3) s with
  | some (v, r) => if (skipWs r).isEmpty then some v else none
  | none => none

/-! ## Structured response recovery
(`src/services/ocr_service.py`, `extract_json_from_llm_response`) -/

def fence3 : List Char := ['`', '`', '`']

def fenceJson : List Char := ['`', '`', '`', 'j', 's', 'o', 'n']

/-- The markdown-fence head strip (ocr_service.py lines 185-192). -/
def headStrip (s : List Char) : List Char :=
  if leadsWith fenceJson s then (s.drop 7).dropWhile (· = '\n')
  else if leadsWith fence3 s then
    match findCh '\n' s with
    | some i => s.drop (i + 1)
    | none => s.drop 3
  else s

/-- The markdown-fence tail strip (lines 194-196): under the `endswith`
guard `rfind` cannot miss, but its miss value -1 would slice off the last
character, which the second branch mirrors. -/
def tailStrip (s : List Char) : List Char :=
  if trailsWith fence3 s then
    match rfindSub fence3 s with
    | some i => stripR (s.take i)
    | none => stripR (s.take (s.length - 1))
  else s

/-- Strategy 3 (lines 207-219): the slice from the first `{` to the last
`}` inclusive, when both exist in that order. -/
def braceSlice (s : List Char) : Option (List Char) :=
  match findCh '{' s, rfindSub ['}'] s with
  | some bs, some be => if bs < be then some ((s.take (be + 1)).drop bs) else none
  | _, _ => none

/-- Length (from the character after an opening `{` through its closing
`}`) of the match of the brace-balanced regex
`\{(?:[^{}]|(?:\{(?:[^{}]|(?:\{[^{}]*\})*)*\})*)*\}` at that position,
`d` being the nesting depth still allowed below this level (the pattern
allows two).  The regex alternatives are disjoint on the next character,
so backtracking is deterministic and the matcher below computes exactly
the regex engine's match extent, or its failure. -/
def braceLen : Nat → Nat → List Char → Option Nat
  | 0, _, _ => none
  | _ + 1, _, [] => none
  | fuel + 1, d, c :: rest =>
    if c = '}' then some 1
    else if c = '{' then
      match d with
      | 0 => none
      | e + 1 =>
        match braceLen fuel e rest with
        | none => none
        | some k =>
          match braceLen fuel d (rest.drop k) with
          | none => none
          | some k2 => some (1 + k + k2)
    else (braceLen fuel d rest).map (· + 1)

/-- `re.findall` of the brace-balanced pattern (line 221-222): scan left
to right; at each `{` emit the match if one starts there and continue
after it (non-overlapping), else move one character on. -/
def braceFindAll : Nat → List Char → List (List Char)
  | 0, _ => []
  | _ + 1, [] => []
  | fuel + 1, c :: rest =>
    if c = '{' then
      match braceLen (2 * rest.length + 2) 2 rest with
      | some k => ((c :: rest).take (k + 1)) :: braceFindAll fuel (rest.drop k)
      | none => braceFindAll fuel rest
    else braceFindAll fuel rest

/-- Strategy 4 (lines 221-229): the first candidate that parses. -/
def firstParse : List (List Char) → Option JVal
  | [] => none
  | c :: t =>
    match parseWhole c with
    | some v => some v
    | none => firstParse t

def regexScan (s : List Char) : Option JVal :=
  firstParse (braceFindAll (s.length + 1) s)

/-- `extract_json_from_llm_response(raw_content)` (ocr_service.py lines
167-234): empty input short-circuits to `none`; otherwise the four-stage
cascade — direct parse, fence-stripped parse, first-to-last-brace slice,
brace-balanced scan — returns the first success, and `none` (never an
exception) when every stage fails. -/
def extract_json_from_llm_response (raw : List Char) : Option JVal :=
  if raw.isEmpty then none
  else
    let clean0 := pyStrip raw
    match parseWhole clean0 with
    | some v => some v
    | none =>
      let c1 := pyStrip (tailStrip (headStrip clean0))
      match parseWhole c1 with
      | some v => some v
      | none =>
        match braceSlice c1 with
        | some cand =>
          match parseWhole cand with
          | some v => some v
          | none => regexScan c1
        | none => regexScan c1

/-! ## Rendering and Python coercions of JSON values -/

mutual

/-- A compact JSON text of a value (what the fence-idempotence theorem
feeds the recovery cascade). -/
def render : JVal → List Char
  | .jnull => ['n', 'u', 'l', 'l']
  | .jbool true => ['t', 'r', 'u', 'e']
  | .jbool false => ['f', 'a', 'l', 's', 'e']
  | .jint n => intChars n
  | .jstr s => '"' :: (s ++ ['"'])
  | .jarr xs => '[' :: (renderElems xs ++ [']'])
  | .jobj kvs => '{' :: (renderMembers kvs ++ ['}'])

def renderElems : List JVal → List Char
  | [] => []
  | [x] => render x
  | x :: y :: t => render x ++ ',' :: renderElems (y :: t)

def renderMembers : List (List Char × JVal) → List Char
  | [] => []
  | [(k, v)] => '"' :: (k ++ '"' :: ':' :: render v)
  | (k, v) :: m :: t =>
    ('"' :: (k ++ '"' :: ':' :: render v)) ++ ',' :: renderMembers (m :: t)

end

/-- Escape-free string contents (see `wfJ`). -/
def wfStrChars (s : List Char) : Bool :=
  s.all fun c => 32 ≤ c.toNat && c ≠ '"' && c ≠ '\\'

mutual

/-- Values whose strings (and keys) need no escaping: characters at or
above space, no quote, no backslash.  The renderer emits exactly such
values as valid JSON. -/
def wfJ : JVal → Bool
  | .jstr s => wfStrChars s
  | .jarr xs => wfElems xs
  | .jobj kvs => wfMembers kvs
  | _ => true

def wfElems : List JVal → Bool
  | [] => true
  | x :: t => wfJ x && wfElems t

def wfMembers : List (List Char × JVal) → Bool
  | [] => true
  | (k, v) :: t => wfStrChars k && wfJ v && wfMembers t

end


mutual

/-- Python `repr` of a decoded JSON value (single-quoted strings; quote
escaping inside strings is outside the model, the orchestrator's theorems
never depend on it). -/
def pyRepr : JVal → List Char
  | .jnull => ("None").toList
  | .jbool true => ("True").toList
  | .jbool false => ("False").toList
  | .jint n => intChars n
  | .jstr s => Char.ofNat 39 :: (s ++ [Char.ofNat 39])
  | .jarr xs => '[' :: (pyReprElems xs ++ [']'])
  | .jobj kvs => '{' :: (pyReprMembers kvs ++ ['}'])

def pyReprElems : List JVal → List Char
  | [] => []
  | [x] => pyRepr x
  | x :: y :: t => pyRepr x ++ ',' :: ' ' :: pyReprElems (y :: t)

def pyReprMembers : List (List Char × JVal) → List Char
  | [] => []
  | [(k, v)] => (pyRepr (JVal.jstr k)) ++ ':' :: ' ' :: pyRepr v
  | (k, v) :: m :: t =>
    (pyRepr (JVal.jstr k)) ++ ':' :: ' ' :: pyRepr v ++ ',' :: ' ' :: pyReprMembers (m :: t)

end

/-- Python `str()` of a decoded JSON value (`str` is identity on strings,
`repr` elsewhere). -/
def pyStr (v : JVal) : List Char :=
  match v with
  | .jstr s => s
  | _ => pyRepr v

def isNull : JVal → Bool
  | .jnull => true
  | _ => false

def isEmptyStr : JVal → Bool
  | .jstr [] => true
  | _ => false

/-- Python `v == s` for a string literal `s`. -/
def jEqStr (v : JVal) (s : List Char) : Bool :=
  match v with
  | .jstr t => t = s
  | _ => false

/-- Python dict lookup on decoded JSON: with duplicate keys in the text
the last occurrence wins, as in `json.loads`. -/
def jGet (kvs : List (List Char × JVal)) (k : List Char) : Option JVal :=
  (kvs.reverse.find? fun e => e.1 = k).map (·.2)

/-! ## LLM extraction orchestrator
(`src/services/ocr_service.py`, `analyze_lease_via_deepseek`) -/

/-- The working result dict of `analyze_lease_via_deepseek`: the thirteen
keys of `DEFAULT_LEASE_DATA`, each holding whatever JSON value the merge
left there. -/
structure LeaseData where
  rent : JVal
  deposit : JVal
  term_months : JVal
  start_date : JVal
  end_date : JVal
  landlord : JVal
  tenant : JVal
  risk_score : JVal
  risk_level : JVal
  red_flags : JVal
  negotiation_tips : JVal
  summary : JVal
  clauses : JVal

/-- `DEFAULT_LEASE_DATA` (ocr_service.py lines 19-33). -/
def DEFAULT_LEASE_DATA : LeaseData where
  rent := .jnull
  deposit := .jnull
  term_months := .jnull
  start_date := .jnull
  end_date := .jnull
  landlord := .jnull
  tenant := .jnull
  risk_score := .jint 50
  risk_level := .jstr (("medium").toList)
  red_flags := .jarr [.jstr (("Could not parse lease details").toList)]
  negotiation_tips := .jarr [.jstr (("Review document manually").toList)]
  summary := .jstr (("Analysis incomplete due to parsing error.").toList)
  clauses := .jarr []

/-- The thirteen keys of the result dict, in insertion order. -/
def leaseKeys : List (List Char) :=
  [("rent").toList, ("deposit").toList, ("term_months").toList,
   ("start_date").toList, ("end_date").toList, ("landlord").toList,
   ("tenant").toList, ("risk_score").toList, ("risk_level").toList,
   ("red_flags").toList, ("negotiation_tips").toList, ("summary").toList,
   ("clauses").toList]

/-- The merge condition of lines 344-346: the key is present and its
value is neither `None` nor `""` (Python `!=` against `""` is false for
every non-string and for every other string). -/
def mergeField (kvs : List (List Char × JVal)) (k : List Char) (dflt : JVal) : JVal :=
  match jGet kvs k with
  | none => dflt
  | some v => if isNull v || isEmptyStr v then dflt else v

/-- The merge loop of lines 343-351 when the recovered value is a dict. -/
def mergeObj (kvs : List (List Char × JVal)) : LeaseData where
  rent := mergeField kvs (("rent").toList) .jnull
  deposit := mergeField kvs (("deposit").toList) .jnull
  term_months := mergeField kvs (("term_months").toList) .jnull
  start_date := mergeField kvs (("start_date").toList) .jnull
  end_date := mergeField kvs (("end_date").toList) .jnull
  landlord := mergeField kvs (("landlord").toList) .jnull
  tenant := mergeField kvs (("tenant").toList) .jnull
  risk_score := mergeField kvs (("risk_score").toList) (.jint 50)
  risk_level := mergeField kvs (("risk_level").toList) (.jstr (("medium").toList))
  red_flags := mergeField kvs (("red_flags").toList)
    (.jarr [.jstr (("Could not parse lease details").toList)])
  negotiation_tips := mergeField kvs (("negotiation_tips").toList)
    (.jarr [.jstr (("Review document manually").toList)])
  summary := mergeField kvs (("summary").toList)
    (.jstr (("Analysis incomplete due to parsing error.").toList))
  clauses := mergeField kvs (("clauses").toList) (.jarr [])

/-- The merge loop on an arbitrary recovered value.  A dict merges
field-wise and cannot raise.  On a list, `key in parsed` is membership:
if some result key occurs as an element, `parsed[key]` raises `TypeError`
(caught by the orchestrator's blanket handler, `none` here); otherwise no
key merges.  On a string, `key in parsed` is a substring test and a hit
makes `parsed[key]` raise likewise.  On a number or bool, `key in parsed`
itself raises `TypeError`.  (`parsed is None` was handled before the
merge.) -/
def mergeWithDefaults (parsed : JVal) : Option LeaseData :=
  match parsed with
  | .jobj kvs => some (mergeObj kvs)
  | .jarr xs =>
    if leaseKeys.any (fun k => xs.any fun x => jEqStr x k) then none
    else some (mergeObj [])
  | .jstr s =>
    if leaseKeys.any (fun k => hasSub k s) then none
    else some (mergeObj [])
  | _ => none

/-- The result of `regex_extract_fallback(full_text)` (ocr_service.py
lines 138-164), passed to the orchestrator as data: the patterns run
through Python's `re` engine (an external collaborator), and the dict
values carry what the source stored — for `rent`/`deposit` the matched
group prefixed with `"$"` (line 158), for `term_months` the parsed int,
for the rest the raw group.  Absent fields are `none`. -/
structure RegexFB where
  rent : Option (List Char)
  deposit : Option (List Char)
  term_months : Option Int
  start_date : Option (List Char)
  landlord : Option (List Char)
  tenant : Option (List Char)

/-- An empty fallback dict (no pattern matched). -/
def noFB : RegexFB := ⟨none, none, none, none, none, none⟩

/-- One step of the gap-filling loop of lines 355-360. -/
def fillField (cur : JVal) (fb : Option JVal) : JVal :=
  if isNull cur then
    match fb with
    | some v => v
    | none => cur
  else cur

/-- The gap-filling loop of lines 355-360: only
`rent, deposit, term_months, start_date`, and only when still `None`. -/
def applyFB (r : LeaseData) (fb : RegexFB) : LeaseData :=
  { r with
    rent := fillField r.rent (fb.rent.map .jstr)
    deposit := fillField r.deposit (fb.deposit.map .jstr)
    term_months := fillField r.term_months (fb.term_months.map .jint)
    start_date := fillField r.start_date (fb.start_date.map .jstr) }

/-- `re.sub(r"[^\d.]", "", str(value))` of lines 361-366. -/
def keepDigitsDot (s : List Char) : List Char :=
  s.filter fun c => c.isDigit || c = '.'

/-- The money normalization of lines 361-366: non-`None` `rent` and
`deposit` are stringified and stripped to digits and dots. -/
def normMoney (r : LeaseData) : LeaseData :=
  { r with
    rent := if isNull r.rent then r.rent else .jstr (keepDigitsDot (pyStr r.rent))
    deposit := if isNull r.deposit then r.deposit
      else .jstr (keepDigitsDot (pyStr r.deposit)) }

/-- The label set test of line 369. -/
def isValidLevel (v : JVal) : Bool :=
  jEqStr v (("low").toList) || jEqStr v (("medium").toList) ||
    jEqStr v (("high").toList)

/-- The thresholds of lines 370-377. -/
def deriveLevel (n : Int) : List Char :=
  if n ≤ 40 then ("low").toList
  else if n ≤ 70 then ("medium").toList
  else ("high").toList

/-- Lines 367-368: a `None` score becomes 50. -/
def fixScoreNull (r : LeaseData) : LeaseData :=
  if isNull r.risk_score then { r with risk_score := JVal.jint 50 } else r

/-- Lines 369-379: an invalid label is derived from the score when the
score is numeric.  `isinstance(x, (int, float))` holds for decoded ints
and (Python `bool` being an `int` subclass) bools; the only other decoded
values are `None` (already replaced), strings, lists and dicts, which
take the `"medium"` branch. -/
def fixLevel (r : LeaseData) : LeaseData :=
  if isValidLevel r.risk_level then r
  else
    match r.risk_score with
    | .jint n => { r with risk_level := .jstr (deriveLevel n) }
    | .jbool b => { r with risk_level := .jstr (deriveLevel (if b then 1 else 0)) }
    | _ => { r with risk_level := .jstr (("medium").toList) }

/-- The risk normalization of lines 367-379. -/
def fixRisk (r : LeaseData) : LeaseData := fixLevel (fixScoreNull r)

/-- Line 389-390: a `None` clause list becomes `[]` (the key always
exists in the result dict). -/
def fixClausesNull (r : LeaseData) : LeaseData :=
  if isNull r.clauses then { r with clauses := .jarr [] } else r

/-- Whether the diagnostic block of lines 391-398 completes without an
exception: `len(clauses)` needs a sized value; a truthy (nonempty) value
must yield `clauses[0].get(...)`, which needs element 0 to be a dict —
a nonempty list headed by a dict, while a nonempty string indexes to a
1-character string without `.get` and a nonempty dict has no key `0`.
Numbers and bools have no `len`. -/
def clausesOkB : JVal → Bool
  | .jarr [] => true
  | .jarr (x :: _) =>
    match x with
    | .jobj _ => true
    | _ => false
  | .jstr [] => true
  | .jstr (_ :: _) => false
  | .jobj [] => true
  | .jobj (_ :: _) => false
  | _ => false

/-- Whether a merged `clauses` value survives the diagnostics of lines
389-398: the `None`-fix of line 389-390 applied, then `clausesOkB`. -/
def clausesPass (v : JVal) : Bool :=
  clausesOkB (if isNull v then JVal.jarr [] else v)

/-- Lines 343-399 on a recovered non-`None` value: merge with defaults
(a raised merge lands in the blanket `except` and yields the default
object), fill gaps from the regex fallback, normalize money and risk,
fix a `None` clause list, and run the clause diagnostics (whose exception
likewise yields the default object). -/
def runParsed (p : JVal) (fb : RegexFB) : LeaseData :=
  match mergeWithDefaults p with
  | none => DEFAULT_LEASE_DATA
  | some r0 =>
    let r := fixClausesNull (fixRisk (normMoney (applyFB r0 fb)))
    if clausesOkB r.clauses then r else DEFAULT_LEASE_DATA

/-- The transport outcome of the single
`client.chat.completions.create` call: an exception, or the raw response
text (`response.choices[0].message.content or ""`). -/
inductive LLMResult where
  | failure : LLMResult
  | success : List Char → LLMResult

/-- `analyze_lease_via_deepseek(full_text)` (ocr_service.py lines
292-405).  The configuration value `settings.DEEPSEEK_API_KEY` (empty =
falsy/unset), the transport outcome and the regex-fallback dict for
`full_text` enter as arguments; every failure path returns a copy of
`DEFAULT_LEASE_DATA`. -/
def analyze_lease_via_deepseek (full_text : List Char) (api_key : List Char)
    (llm : LLMResult) (fb : RegexFB) : LeaseData :=
  if full_text.isEmpty || (pyStrip full_text).isEmpty then DEFAULT_LEASE_DATA
  else if api_key.isEmpty then DEFAULT_LEASE_DATA
  else
    match llm with
    | .failure => DEFAULT_LEASE_DATA
    | .success raw =>
      match extract_json_from_llm_response raw with
      | none => DEFAULT_LEASE_DATA
      | some p => if isNull p then DEFAULT_LEASE_DATA else runParsed p fb

/-! ## Auxiliary measures and wrappers used by the theorems -/

/-- A raw LLM output: `body` wrapped in a markdown code fence whose info
tag is `tag`. -/
def fenceWrap (tag body : List Char) : List Char :=
  fence3 ++ (tag ++ '\n' :: (body ++ '\n' :: fence3))

/-- Whether the input does not start with a digit (the condition under
which a number token before it parses back unchanged). -/
def noDigitHead : List Char → Prop
  | [] => True
  | c :: _ => c.isDigit = false

instance : DecidablePred noDigitHead := fun l => by
  cases l <;> simp only [noDigitHead] <;> infer_instance

mutual

/-- Fuel that suffices for `parseVal` on a rendering of the value. -/
def jcost : JVal → Nat
  | .jarr xs => 2 + jcostElems xs
  | .jobj kvs => 2 + jcostMembers kvs
  | _ => 1

def jcostElems : List JVal → Nat
  | [] => 0
  | x :: t => 1 + jcost x + jcostElems t

def jcostMembers : List (List Char × JVal) → Nat
  | [] => 0
  | (_, v) :: t => 1 + jcost v + jcostMembers t

end

/-! # Theorems -/

/-! ## Map and filter helpers -/

theorem mapSet_same (m : String → List Int) (k : String) (v : List Int) :
    mapSet m k v k = v := by
  simp [mapSet]

theorem mapSet_self (m : String → List Int) (k : String) :
    mapSet m k (m k) = m := by
  funext x
  by_cases h : x = k <;> simp [mapSet, h]

theorem mapSet_mapSet (m : String → List Int) (k : String) (v w : List Int) :
    mapSet (mapSet m k v) k w = mapSet m k w := by
  funext x
  by_cases h : x = k <;> simp [mapSet, h]

theorem filter_self_of_filter (p : Int → Bool) (l : List Int) :
    (l.filter p).filter p = l.filter p := by
  induction l with
  | nil => rfl
  | cons a t ih =>
    by_cases h : p a <;> simp [List.filter_cons, h, ih]

theorem inWindowCount_filter (l : List Int) (now : Int) :
    inWindowCount (l.filter fun ts => now - QUICK_ANALYZE_WINDOW < ts) now =
      inWindowCount l now := by
  unfold inWindowCount
  rw [filter_self_of_filter]

theorem filter_single_now (now : Int) :
    List.filter (fun ts => decide (now - QUICK_ANALYZE_WINDOW < ts)) [now] =
      [now] := by
  have hnow : now - QUICK_ANALYZE_WINDOW < now := by
    unfold QUICK_ANALYZE_WINDOW
    omega
  simp [hnow]

theorem inWindowCount_append_now (l : List Int) (now : Int) :
    inWindowCount ((l.filter fun ts => now - QUICK_ANALYZE_WINDOW < ts) ++ [now]) now =
      (l.filter fun ts => now - QUICK_ANALYZE_WINDOW < ts).length + 1 := by
  unfold inWindowCount
  rw [List.filter_append, filter_self_of_filter, filter_single_now,
    List.length_append, List.length_cons, List.length_nil]

/-! ## Claim C7: the paid-access gate -/

/-- Claim C7.  A user whose record holds at least
`FULL_ANALYSIS_LEASE_LIMIT` (5) analysis ids and whose pass has not
expired is denied with reason `"lease_limit_reached"`; access is granted
exactly in the unexpired, under-limit state; recording a successful
analysis appends the fresh analysis id to the user's `analysis_ids`. -/
theorem check_user_access_lease_limit :
    (∀ (a : AccessRecord) (now : Int),
        now < a.expires_at → FULL_ANALYSIS_LEASE_LIMIT ≤ a.analysis_ids.length →
        check_user_access (some a) now =
          ⟨false, some "lease_limit_reached", none, none, none, none⟩)
    ∧ (∀ (entry : Option AccessRecord) (now : Int),
        (check_user_access entry now).has_access = true ↔
          ∃ a, entry = some a ∧ now < a.expires_at ∧
            a.analysis_ids.length < FULL_ANALYSIS_LEASE_LIMIT)
    ∧ (∀ (ids : List String) (aid : String), aid ∉ ids →
        recordAnalysisId ids aid = ids ++ [aid]) := by
  refine ⟨?_, ?_, ?_⟩
  · intro a now h1 h2
    rw [check_user_access, if_neg (by omega), if_pos (by omega)]
  · intro entry now
    constructor
    · intro h
      match entry with
      | none => simp [check_user_access] at h
      | some a =>
        rw [check_user_access] at h
        by_cases h1 : now ≥ a.expires_at
        · rw [if_pos h1] at h; simp at h
        · rw [if_neg h1] at h
          by_cases h2 : a.analysis_ids.length ≥ FULL_ANALYSIS_LEASE_LIMIT
          · rw [if_pos h2] at h; simp at h
          · exact ⟨a, rfl, by omega, by omega⟩
    · rintro ⟨a, rfl, h1, h2⟩
      rw [check_user_access, if_neg (by omega), if_neg (by omega)]
  · intro ids aid h
    simp [recordAnalysisId, h]

/-- Witness for `check_user_access_lease_limit` at a concrete record. -/
theorem check_user_access_lease_limit_witness :
    check_user_access
        (some ⟨1000, ["a1", "a2", "a3", "a4", "a5"]⟩) 0 =
      ⟨false, some "lease_limit_reached", none, none, none, none⟩ :=
  check_user_access_lease_limit.1 ⟨1000, ["a1", "a2", "a3", "a4", "a5"]⟩ 0
    (by decide) (by decide)

/-! ## Claim C8: the sliding-window rate limiter -/

/-- Claim C8.  From empty stores, with the user ceiling 3 per 24-hour
window, three checks inside the window are admitted (remaining 2, 1, 0),
the fourth inside the window is denied with remaining 0, and a check
after the window has elapsed is admitted again; and whenever a check is
admitted, the number of in-window timestamps stored under the user key is
at most 3 and under the IP key at most 20. -/
theorem check_rate_limit_window :
    runRateChecks (fun _ => []) (fun _ => [])
        [("u", "ip", 0), ("u", "ip", 1), ("u", "ip", 2), ("u", "ip", 3),
         ("u", "ip", 90000)] =
      [(true, 2), (true, 1), (true, 0), (false, 0), (true, 2)]
    ∧ (∀ (um im : String → List Int) (uid ip : String) (now : Int),
        (check_rate_limit um im uid ip now).1.1 = true →
          inWindowCount ((check_rate_limit um im uid ip now).2.1 uid) now ≤
              QUICK_ANALYZE_USER_LIMIT ∧
            inWindowCount ((check_rate_limit um im uid ip now).2.2 ip) now ≤
              QUICK_ANALYZE_IP_LIMIT) := by
  constructor
  · decide
  · intro um im uid ip now h
    simp only [check_rate_limit, mapSet_same] at h ⊢
    split_ifs at h ⊢ with h1 h2
    dsimp only
    simp only [mapSet_mapSet, mapSet_same]
    rw [inWindowCount_append_now, inWindowCount_append_now]
    unfold QUICK_ANALYZE_USER_LIMIT at h1 ⊢
    unfold QUICK_ANALYZE_IP_LIMIT at h2 ⊢
    omega

/-- Witness for `check_rate_limit_window`: an admitted check from empty
stores leaves at most the user ceiling in the window. -/
theorem check_rate_limit_window_witness :
    inWindowCount
        ((check_rate_limit (fun _ => []) (fun _ => []) "u" "i" 0).2.1 "u") 0 ≤
      QUICK_ANALYZE_USER_LIMIT :=
  (check_rate_limit_window.2 (fun _ => []) (fun _ => []) "u" "i" 0 (by decide)).1

/-! ## Claim C10: a denied rate-limit check consumes no quota -/

/-- Claim C10.  A denied check only prunes: the stores coming out of a
denied `check_rate_limit` are exactly the pruned stores (nothing is
appended), the in-window counts of both checked keys are unchanged, and
repeating the denied check at the same instant returns the same denial
and the same stores. -/
theorem check_rate_limit_denied_consumes_nothing :
    ∀ (um im : String → List Int) (uid ip : String) (now : Int),
      (check_rate_limit um im uid ip now).1.1 = false →
        (check_rate_limit um im uid ip now).2.1 =
            mapSet um uid ((um uid).filter fun ts => now - QUICK_ANALYZE_WINDOW < ts)
          ∧ (check_rate_limit um im uid ip now).2.2 =
            mapSet im ip ((im ip).filter fun ts => now - QUICK_ANALYZE_WINDOW < ts)
          ∧ inWindowCount ((check_rate_limit um im uid ip now).2.1 uid) now =
            inWindowCount (um uid) now
          ∧ inWindowCount ((check_rate_limit um im uid ip now).2.2 ip) now =
            inWindowCount (im ip) now
          ∧ check_rate_limit (check_rate_limit um im uid ip now).2.1
              (check_rate_limit um im uid ip now).2.2 uid ip now =
            ((false, (check_rate_limit um im uid ip now).1.2),
             (check_rate_limit um im uid ip now).2.1,
             (check_rate_limit um im uid ip now).2.2) := by
  intro um im uid ip now h
  by_cases h1 : (((um uid).filter fun ts =>
      now - QUICK_ANALYZE_WINDOW < ts)).length ≥ QUICK_ANALYZE_USER_LIMIT
  · have e : check_rate_limit um im uid ip now =
        ((false, 0),
         mapSet um uid ((um uid).filter fun ts => now - QUICK_ANALYZE_WINDOW < ts),
         mapSet im ip ((im ip).filter fun ts => now - QUICK_ANALYZE_WINDOW < ts)) := by
      simp only [check_rate_limit, mapSet_same]
      rw [if_pos h1]
    rw [e]
    refine ⟨rfl, rfl, ?_, ?_, ?_⟩
    · dsimp only
      rw [mapSet_same, inWindowCount_filter]
    · dsimp only
      rw [mapSet_same, inWindowCount_filter]
    · dsimp only
      simp only [check_rate_limit, mapSet_same, filter_self_of_filter,
        mapSet_mapSet]
      rw [if_pos h1]
  · by_cases h2 : (((im ip).filter fun ts =>
        now - QUICK_ANALYZE_WINDOW < ts)).length ≥ QUICK_ANALYZE_IP_LIMIT
    · have e : check_rate_limit um im uid ip now =
          ((false, QUICK_ANALYZE_USER_LIMIT -
              (((um uid).filter fun ts => now - QUICK_ANALYZE_WINDOW < ts)).length),
           mapSet um uid ((um uid).filter fun ts => now - QUICK_ANALYZE_WINDOW < ts),
           mapSet im ip ((im ip).filter fun ts => now - QUICK_ANALYZE_WINDOW < ts)) := by
        simp only [check_rate_limit, mapSet_same]
        rw [if_neg h1, if_pos h2]
      rw [e]
      refine ⟨rfl, rfl, ?_, ?_, ?_⟩
      · dsimp only
        rw [mapSet_same, inWindowCount_filter]
      · dsimp only
        rw [mapSet_same, inWindowCount_filter]
      · dsimp only
        simp only [check_rate_limit, mapSet_same, filter_self_of_filter,
          mapSet_mapSet]
        rw [if_neg h1, if_pos h2]
    · exfalso
      simp only [check_rate_limit, mapSet_same] at h
      rw [if_neg h1, if_neg h2] at h
      simp at h

/-- Witness for `check_rate_limit_denied_consumes_nothing`: a user key
already at its ceiling is denied and its stored list stays `[0, 1, 2]`. -/
theorem check_rate_limit_denied_witness :
    (check_rate_limit (fun x => if x = "u" then [0, 1, 2] else []) (fun _ => [])
        "u" "i" 3).2.1 =
      mapSet (fun x => if x = "u" then [0, 1, 2] else []) "u"
        (((fun x : String => if x = "u" then [0, 1, 2] else []) "u").filter
          fun ts => 3 - QUICK_ANALYZE_WINDOW < ts) :=
  (check_rate_limit_denied_consumes_nothing
    (fun x => if x = "u" then [0, 1, 2] else []) (fun _ => []) "u" "i" 3
    (by decide)).1

/-! ## Claim C3: the clause noise filter -/

/-- Claim C3.  The kept output is exactly the input filtered by
`keepClause` in input order; a clause fails `keepClause` precisely when it
is shorter than 15 characters and has no digit, no currency symbol and no
date-like substring; `"$25 late fee"` (12 characters, currency and
digits) is kept while `"Section"` (7 characters, no signal) is dropped. -/
theorem filter_clauses_noise_rule :
    (∀ clauses : List PClause,
        (filter_and_extract_high_risk_clauses clauses).1 =
          clauses.filter keepClause)
    ∧ (∀ c : PClause, keepClause c = false ↔
        (c.clause_text.length < 15 ∧ c.clause_text.any Char.isDigit = false ∧
          hasCurrencyCh c.clause_text = false ∧ dateSearch c.clause_text = false))
    ∧ keepClause ⟨("$25 late fee").toList, ("caution").toList⟩ = true
    ∧ keepClause ⟨("Section").toList, ("safe").toList⟩ = false := by
  refine ⟨?_, ?_, by decide, by decide⟩
  · intro clauses
    induction clauses with
    | nil => rfl
    | cons c t ih =>
      by_cases h : keepClause c <;>
        simp [filter_and_extract_high_risk_clauses, List.filter_cons, h, ih]
  · intro c
    unfold keepClause
    by_cases h : c.clause_text.length < 15
    · rw [if_pos h]
      constructor
      · intro hh
        simp only [Bool.or_eq_false_iff] at hh
        exact ⟨h, hh.1.1, hh.1.2, hh.2⟩
      · rintro ⟨-, h1, h2, h3⟩
        simp [h1, h2, h3]
    · rw [if_neg h]
      simp only [Bool.true_eq_false, false_iff]
      rintro ⟨h1, -⟩
      exact h h1

/-! ## Claim C2: the risk escalation rule (corrected)

The general escalation rule of the claim holds: a kept clause lands in
`high_risk` iff its label is the highest category (`"danger"`) or its
label is the middle category (`"caution"`) and its text contains a
keyword of the fixed bilingual set.  The claim's example is wrong on the
code, however: `"non-refundable"` is not itself in the keyword set and
contains no member of it, so a medium-risk clause whose text contains
`"non-refundable"` but no keyword is NOT escalated
(`escalate_non_refundable_cex`).  The spec's own end-to-end example
escalates because its text also contains the keyword `"deposit"`. -/

/-- Counterexample to claim C2 as stated: a kept medium-risk
(`"caution"`) clause whose text contains `"non-refundable"` does not
appear in `high_risk`. -/
theorem escalate_non_refundable_cex :
    hasSub (("non-refundable").toList) (("money non-refundable here").toList) = true
    ∧ (("money non-refundable here").toList).length ≥ 15
    ∧ (filter_and_extract_high_risk_clauses
        [⟨("money non-refundable here").toList, ("caution").toList⟩]).1 =
      [⟨("money non-refundable here").toList, ("caution").toList⟩]
    ∧ (filter_and_extract_high_risk_clauses
        [⟨("money non-refundable here").toList, ("caution").toList⟩]).2 = [] := by
  refine ⟨by decide, by decide, by decide, by decide⟩

/-- Claim C2 as amended.  `high_risk` is exactly the kept clauses passing
`escalateClause`, in input order; `escalateClause` holds iff the label is
`"danger"`, or the label is `"caution"` and some keyword of the fixed
bilingual set occurs in the text (case-folded or raw); a medium-risk
clause containing the keyword `"deposit"` (the spec example's
`"Security deposit of $685 is non-refundable"`) is escalated, while a
medium-risk clause containing `"non-refundable"` but no keyword is not. -/
theorem filter_clauses_escalation_rule :
    (∀ clauses : List PClause,
        (filter_and_extract_high_risk_clauses clauses).2 =
          clauses.filter fun c => keepClause c && escalateClause c)
    ∧ (∀ c : PClause, escalateClause c = true ↔
        (c.risk_level = ("danger").toList ∨
          (c.risk_level = ("caution").toList ∧
            ∃ kw ∈ money_termination_keywords,
              (hasSub kw (toLowerL c.clause_text) || hasSub kw c.clause_text)
                = true)))
    ∧ (filter_and_extract_high_risk_clauses
        [⟨("Security deposit of $685 is non-refundable").toList,
          ("caution").toList⟩]).2 =
      [⟨("Security deposit of $685 is non-refundable").toList,
        ("caution").toList⟩]
    ∧ (filter_and_extract_high_risk_clauses
        [⟨("money non-refundable here").toList, ("caution").toList⟩]).2 = [] := by
  refine ⟨?_, ?_, by decide, by decide⟩
  · intro clauses
    induction clauses with
    | nil => rfl
    | cons c t ih =>
      by_cases h : keepClause c
      · by_cases h2 : escalateClause c <;>
          simp [filter_and_extract_high_risk_clauses, List.filter_cons, h, h2, ih]
      · simp [filter_and_extract_high_risk_clauses, List.filter_cons, h, ih]
  · intro c
    unfold escalateClause
    constructor
    · intro hh
      simp only [Bool.or_eq_true, Bool.and_eq_true, decide_eq_true_eq,
        List.any_eq_true] at hh
      rcases hh with h1 | ⟨h1, kw, hkw, h2⟩
      · exact Or.inl h1
      · exact Or.inr ⟨h1, kw, hkw, by simp [h2]⟩
    · rintro (h1 | ⟨h1, kw, hkw, h2⟩)
      · simp [h1]
      · simp only [Bool.or_eq_true, Bool.and_eq_true, decide_eq_true_eq,
          List.any_eq_true]
        exact Or.inr ⟨h1, kw, hkw, by simpa using h2⟩

/-! ## Claim C9: date normalization (corrected)

The three formats, their priority, the 2000s completion of two-digit
years and totality are as claimed.  The pass-through half of the claim is
wrong on the code: `normalize_date` strips the input before matching
(ocr_service.py line 102) and returns the STRIPPED text when nothing
matches, so an unrecognized input with surrounding whitespace is not
returned unchanged (`normalize_date_strip_cex`). -/

/-- Counterexample to claim C9 as stated: the unrecognized input
`"  hello "` comes back as `"hello"`, not unchanged. -/
theorem normalize_date_strip_cex :
    normalize_date (("  hello ").toList) = ("hello").toList
    ∧ normalize_date (("  hello ").toList) ≠ ("  hello ").toList := by
  constructor
  · decide
  · decide

/-- Claim C9 as amended.  `normalize_date` recognizes `"Month D, YYYY"`
(known month names), `"M/D/YYYY"` and `"D/M/YYYY"` (digit/digit/year,
two-digit years completed into the 2000s) and `"YYYY/M/D"`, trying the
patterns in that order and rendering the first match as
`year-month-day` with two-digit month and day; an input none of the
patterns recognizes (equivalently, whose only first-pattern match names
an unknown month) is returned stripped of surrounding whitespace but
otherwise unchanged — in particular unchanged whenever it carries no
surrounding whitespace — and the function never raises. -/
theorem normalize_date_formats :
    (∀ v : List Char, ¬v.isEmpty = true →
        dateP1 (pyStrip v) = none → dateP2 (pyStrip v) = none →
        dateP3 (pyStrip v) = none → normalize_date v = pyStrip v)
    ∧ (∀ (v name day yr : List Char), ¬v.isEmpty = true →
        dateP1 (pyStrip v) = some (name, day, yr) →
        monthLookup (toLowerL name) = 0 → dateP2 (pyStrip v) = none →
        dateP3 (pyStrip v) = none → normalize_date v = pyStrip v)
    ∧ normalize_date (("March 5, 2024").toList) = ("2024-03-05").toList
    ∧ normalize_date (("3/4/2024").toList) = ("2024-03-04").toList
    ∧ normalize_date (("3/4/24").toList) = ("2024-03-04").toList
    ∧ normalize_date (("31/12/2023").toList) = ("2023-31-12").toList
    ∧ normalize_date (("2024/3/4").toList) = ("2024-03-04").toList
    ∧ normalize_date [] = [] := by
  refine ⟨?_, ?_, by decide, by decide, by decide, by decide, by decide, by decide⟩
  · intro v hv h1 h2 h3
    rw [normalize_date, if_neg (by simpa using hv)]
    simp only [h1, h2, h3]
  · intro v name day yr hv h1 hm h2 h3
    rw [normalize_date, if_neg (by simpa using hv)]
    simp only [h1, h2, h3, hm]
    simp

/-- Witness for `normalize_date_formats`: the unrecognized input
`"hello"` (no surrounding whitespace) passes through unchanged. -/
theorem normalize_date_formats_witness :
    normalize_date (("hello").toList) = pyStrip (("hello").toList) :=
  normalize_date_formats.1 (("hello").toList) (by decide) (by decide)
    (by decide) (by decide)

/-! ## Pipeline-stage field preservation lemmas -/

theorem applyFB_end_date (r : LeaseData) (fb : RegexFB) :
    (applyFB r fb).end_date = r.end_date := rfl

theorem applyFB_landlord (r : LeaseData) (fb : RegexFB) :
    (applyFB r fb).landlord = r.landlord := rfl

theorem applyFB_tenant (r : LeaseData) (fb : RegexFB) :
    (applyFB r fb).tenant = r.tenant := rfl

theorem applyFB_risk_score (r : LeaseData) (fb : RegexFB) :
    (applyFB r fb).risk_score = r.risk_score := rfl

theorem applyFB_risk_level (r : LeaseData) (fb : RegexFB) :
    (applyFB r fb).risk_level = r.risk_level := rfl

theorem applyFB_clauses (r : LeaseData) (fb : RegexFB) :
    (applyFB r fb).clauses = r.clauses := rfl

theorem fillField_of_not_null (cur : JVal) (fb : Option JVal)
    (h : isNull cur = false) : fillField cur fb = cur := by
  simp [fillField, h]

theorem fillField_of_null_some (cur : JVal) (v : JVal)
    (h : isNull cur = true) : fillField cur (some v) = v := by
  simp [fillField, h]

theorem normMoney_risk_level (r : LeaseData) :
    (normMoney r).risk_level = r.risk_level := rfl

theorem normMoney_risk_score (r : LeaseData) :
    (normMoney r).risk_score = r.risk_score := rfl

theorem normMoney_clauses (r : LeaseData) :
    (normMoney r).clauses = r.clauses := rfl

theorem fixScoreNull_rent (r : LeaseData) : (fixScoreNull r).rent = r.rent := by
  unfold fixScoreNull
  split_ifs <;> rfl

theorem fixScoreNull_clauses (r : LeaseData) :
    (fixScoreNull r).clauses = r.clauses := by
  unfold fixScoreNull
  split_ifs <;> rfl

theorem fixScoreNull_risk_level (r : LeaseData) :
    (fixScoreNull r).risk_level = r.risk_level := by
  unfold fixScoreNull
  split_ifs <;> rfl

theorem fixLevel_rent (r : LeaseData) : (fixLevel r).rent = r.rent := by
  unfold fixLevel
  split_ifs with h
  · rfl
  · split <;> rfl

theorem fixLevel_clauses (r : LeaseData) : (fixLevel r).clauses = r.clauses := by
  unfold fixLevel
  split_ifs with h
  · rfl
  · split <;> rfl

theorem fixRisk_rent (r : LeaseData) : (fixRisk r).rent = r.rent := by
  rw [fixRisk, fixLevel_rent, fixScoreNull_rent]

theorem fixRisk_clauses (r : LeaseData) : (fixRisk r).clauses = r.clauses := by
  rw [fixRisk, fixLevel_clauses, fixScoreNull_clauses]

theorem fixClausesNull_rent (r : LeaseData) :
    (fixClausesNull r).rent = r.rent := by
  unfold fixClausesNull
  split_ifs <;> rfl

theorem fixClausesNull_risk_level (r : LeaseData) :
    (fixClausesNull r).risk_level = r.risk_level := by
  unfold fixClausesNull
  split_ifs <;> rfl

theorem fixClausesNull_clauses (r : LeaseData) :
    (fixClausesNull r).clauses = if isNull r.clauses then .jarr [] else r.clauses := by
  unfold fixClausesNull
  split_ifs <;> rfl

theorem deriveLevel_valid (n : Int) :
    isValidLevel (.jstr (deriveLevel n)) = true := by
  unfold deriveLevel
  split_ifs <;> decide

theorem fixLevel_valid (r : LeaseData) :
    isValidLevel (fixLevel r).risk_level = true := by
  unfold fixLevel
  split_ifs with h
  · exact h
  · split <;> first | exact deriveLevel_valid _ | rfl

theorem fixRisk_valid (r : LeaseData) :
    isValidLevel (fixRisk r).risk_level = true := by
  rw [fixRisk]
  exact fixLevel_valid _

theorem runParsed_pipeline (kvs : List (List Char × JVal)) (fb : RegexFB)
    (h : clausesPass (mergeObj kvs).clauses = true) :
    runParsed (.jobj kvs) fb =
      fixClausesNull (fixRisk (normMoney (applyFB (mergeObj kvs) fb))) := by
  unfold runParsed mergeWithDefaults
  have hc : clausesOkB
      (fixClausesNull (fixRisk (normMoney (applyFB (mergeObj kvs) fb)))).clauses
      = true := by
    rw [fixClausesNull_clauses, fixRisk_clauses, normMoney_clauses,
      applyFB_clauses]
    exact h
  simp only [hc, if_true]

/-! ## Claim C1: the orchestrator's failure paths -/

/-- Claim C1.  Every failure path of `analyze_lease_via_deepseek` returns
the fixed default object: empty or whitespace-only text (for any
transport outcome — the result does not depend on the `llm` argument, the
call is never reached), an unconfigured API key, a transport failure, and
an unrecoverable response; and the default object carries
`risk_score = 50`, `risk_level = "medium"`.  The embedded function is
total, matching the source's blanket exception handling: no path
raises. -/
theorem analyze_lease_failure_paths :
    (∀ (full_text api_key : List Char) (llm : LLMResult) (fb : RegexFB),
        (pyStrip full_text).isEmpty = true →
        analyze_lease_via_deepseek full_text api_key llm fb = DEFAULT_LEASE_DATA)
    ∧ (∀ (full_text : List Char) (llm : LLMResult) (fb : RegexFB),
        analyze_lease_via_deepseek full_text [] llm fb = DEFAULT_LEASE_DATA)
    ∧ (∀ (full_text api_key : List Char) (fb : RegexFB),
        analyze_lease_via_deepseek full_text api_key .failure fb =
          DEFAULT_LEASE_DATA)
    ∧ (∀ (full_text api_key raw : List Char) (fb : RegexFB),
        extract_json_from_llm_response raw = none →
        analyze_lease_via_deepseek full_text api_key (.success raw) fb =
          DEFAULT_LEASE_DATA)
    ∧ DEFAULT_LEASE_DATA.risk_score = JVal.jint 50
    ∧ DEFAULT_LEASE_DATA.risk_level = JVal.jstr (("medium").toList) := by
  refine ⟨?_, ?_, ?_, ?_, rfl, rfl⟩
  · intro full_text api_key llm fb h
    unfold analyze_lease_via_deepseek
    rw [if_pos (by simp [h])]
  · intro full_text llm fb
    unfold analyze_lease_via_deepseek
    split_ifs with h1 h2
    · rfl
    · rfl
    · exact absurd rfl h2
  · intro full_text api_key fb
    unfold analyze_lease_via_deepseek
    split_ifs <;> rfl
  · intro full_text api_key raw fb h
    unfold analyze_lease_via_deepseek
    split_ifs <;> simp [h]

/-- Witness for `analyze_lease_failure_paths`: a whitespace-only document
yields the default object without consulting the LLM outcome. -/
theorem analyze_lease_failure_paths_witness :
    analyze_lease_via_deepseek (("   ").toList) (("key").toList)
        (.success (("ignored").toList)) noFB = DEFAULT_LEASE_DATA :=
  analyze_lease_failure_paths.1 (("   ").toList) (("key").toList)
    (.success (("ignored").toList)) noFB (by decide)

/-! ## Claim C4: risk level normalization (corrected)

The final `risk_level` is always one of `low`, `medium`, `high`, and a
null `risk_score` defaults to 50, as claimed.  The derivation trigger is
narrower than claimed, however: when the parsed response carries NO
usable `risk_level` (key absent, `null`, or `""`), the merge fills in the
default label `"medium"`, which is valid, so no score-based derivation
happens — a response with `risk_score = 85` and no label ends at
`"medium"`, not `"high"` (`risk_level_absent_not_derived_cex`).  The
thresholds only fire when the response supplied a non-null, non-empty
label outside the valid set. -/

/-- Counterexample to claim C4 as stated: a recovered object with
`risk_score = 85` and no `risk_level` key keeps the default label
`"medium"` instead of deriving `"high"` from the score. -/
theorem risk_level_absent_not_derived_cex :
    (runParsed (.jobj [(("risk_score").toList, .jint 85)]) noFB).risk_score =
      .jint 85
    ∧ (runParsed (.jobj [(("risk_score").toList, .jint 85)]) noFB).risk_level =
      .jstr (("medium").toList)
    ∧ (runParsed (.jobj [(("risk_score").toList, .jint 85)]) noFB).risk_level ≠
      .jstr (("high").toList) := by
  refine ⟨rfl, rfl, fun h => ?_⟩
  have h2 : (("medium").toList : List Char) = ("high").toList := by
    have h3 := rfl.trans h
    injection h3
  exact absurd h2 (by decide)

/-- Claim C4 as amended.  In the final result `risk_level` is always one
of `low`, `medium`, `high`, on every path; when a merged result carries
an invalid label (which requires the response to have supplied a
non-null, non-empty label outside the set — an absent, null or empty
label merges to the valid default `"medium"`) and an integer
`risk_score`, `fixRisk` derives the label by the thresholds
score ≤ 40 → low, 41-70 → medium, > 70 → high; and a response whose
`risk_score` is null or absent ends with `risk_score = 50`. -/
theorem risk_level_normalization :
    (∀ (full_text api_key : List Char) (llm : LLMResult) (fb : RegexFB),
        isValidLevel
          (analyze_lease_via_deepseek full_text api_key llm fb).risk_level =
          true)
    ∧ (∀ (r : LeaseData) (n : Int), isValidLevel r.risk_level = false →
        r.risk_score = .jint n →
          ((n ≤ 40 → (fixRisk r).risk_level = .jstr (("low").toList))
            ∧ (41 ≤ n → n ≤ 70 →
                (fixRisk r).risk_level = .jstr (("medium").toList))
            ∧ (70 < n → (fixRisk r).risk_level = .jstr (("high").toList))))
    ∧ (∀ kvs : List (List Char × JVal),
        jGet kvs (("risk_score").toList) = some .jnull →
          (mergeObj kvs).risk_score = .jint 50)
    ∧ (∀ kvs : List (List Char × JVal),
        jGet kvs (("risk_score").toList) = none →
          (mergeObj kvs).risk_score = .jint 50) := by
  refine ⟨?_, ?_, ?_, ?_⟩
  · intro full_text api_key llm fb
    unfold analyze_lease_via_deepseek
    split_ifs
    · rfl
    · rfl
    · cases llm with
      | failure => rfl
      | success raw =>
        dsimp only
        cases hE : extract_json_from_llm_response raw with
        | none => rfl
        | some p =>
          dsimp only
          by_cases hp : isNull p = true
          · rw [if_pos hp]
            rfl
          · rw [if_neg hp]
            unfold runParsed
            cases hm : mergeWithDefaults p with
            | none => rfl
            | some r0 =>
              dsimp only
              by_cases hc : clausesOkB
                  (fixClausesNull (fixRisk (normMoney (applyFB r0 fb)))).clauses
                  = true
              · rw [if_pos hc, fixClausesNull_risk_level]
                exact fixRisk_valid _
              · rw [if_neg hc]
                rfl
  · intro r n h1 h2
    have hs : fixScoreNull r = r := by
      have hnn : isNull r.risk_score = false := by rw [h2]; rfl
      unfold fixScoreNull
      rw [if_neg (by simp [hnn])]
    have e : fixRisk r = { r with risk_level := .jstr (deriveLevel n) } := by
      rw [fixRisk, hs]
      unfold fixLevel
      rw [if_neg (by simpa using h1), h2]
    rw [e]
    refine ⟨?_, ?_, ?_⟩
    · intro hle
      have hd : deriveLevel n = ("low").toList := by
        unfold deriveLevel
        rw [if_pos hle]
      show JVal.jstr (deriveLevel n) = JVal.jstr (("low").toList)
      rw [hd]
    · intro hge hle
      have hd : deriveLevel n = ("medium").toList := by
        unfold deriveLevel
        rw [if_neg (by omega), if_pos hle]
      show JVal.jstr (deriveLevel n) = JVal.jstr (("medium").toList)
      rw [hd]
    · intro hgt
      have hd : deriveLevel n = ("high").toList := by
        unfold deriveLevel
        rw [if_neg (by omega), if_neg (by omega)]
      show JVal.jstr (deriveLevel n) = JVal.jstr (("high").toList)
      rw [hd]
  · intro kvs h
    unfold mergeObj mergeField
    rw [h]
    rfl
  · intro kvs h
    unfold mergeObj mergeField
    rw [h]

/-- Witness for `risk_level_normalization`: an explicit invalid label
`"severe"` with score 85 derives `"high"`, and a null score merges to
50. -/
theorem risk_level_normalization_witness :
    (fixRisk { DEFAULT_LEASE_DATA with
        risk_level := .jstr (("severe").toList),
        risk_score := .jint 85 }).risk_level = .jstr (("high").toList) :=
  ((risk_level_normalization.2.1
    { DEFAULT_LEASE_DATA with
        risk_level := .jstr (("severe").toList), risk_score := .jint 85 }
    85 (by decide) rfl).2.2) (by decide)

/-! ## Claim C5: the regex fallback fills gaps only -/

/-- Claim C5.  The fallback loop touches only
`rent, deposit, term_months, start_date`, and each only when still null
after the merge — a non-null primary value is never overwritten; and for
every recovered object whose merged `rent` is null, when the fallback
dict carries a rent value the final `rent` is that value normalized to
digits and decimal points only (the `"$"` the fallback prefixed, and any
commas, are stripped). -/
theorem regex_fallback_gap_fill :
    (∀ (r : LeaseData) (fb : RegexFB),
        (isNull r.rent = false → (applyFB r fb).rent = r.rent)
        ∧ (isNull r.deposit = false → (applyFB r fb).deposit = r.deposit)
        ∧ (isNull r.term_months = false →
            (applyFB r fb).term_months = r.term_months)
        ∧ (isNull r.start_date = false →
            (applyFB r fb).start_date = r.start_date)
        ∧ (applyFB r fb).end_date = r.end_date
        ∧ (applyFB r fb).landlord = r.landlord
        ∧ (applyFB r fb).tenant = r.tenant
        ∧ (applyFB r fb).risk_score = r.risk_score
        ∧ (applyFB r fb).risk_level = r.risk_level
        ∧ (applyFB r fb).clauses = r.clauses)
    ∧ (∀ (kvs : List (List Char × JVal)) (fb : RegexFB) (s : List Char),
        (mergeObj kvs).rent = .jnull → fb.rent = some s →
        clausesPass (mergeObj kvs).clauses = true →
          (runParsed (.jobj kvs) fb).rent = .jstr (keepDigitsDot s)
          ∧ (keepDigitsDot s).all (fun c => c.isDigit || c = '.') = true) := by
  constructor
  · intro r fb
    refine ⟨?_, ?_, ?_, ?_, rfl, rfl, rfl, rfl, rfl, rfl⟩
    · intro h
      exact fillField_of_not_null _ _ h
    · intro h
      exact fillField_of_not_null _ _ h
    · intro h
      exact fillField_of_not_null _ _ h
    · intro h
      exact fillField_of_not_null _ _ h
  · intro kvs fb s h1 h2 h3
    rw [runParsed_pipeline kvs fb h3, fixClausesNull_rent, fixRisk_rent]
    have hfill : (applyFB (mergeObj kvs) fb).rent = .jstr s := by
      unfold applyFB
      show fillField (mergeObj kvs).rent (fb.rent.map .jstr) = .jstr s
      rw [h1, h2]
      rfl
    constructor
    · unfold normMoney
      show (if isNull (applyFB (mergeObj kvs) fb).rent
          then (applyFB (mergeObj kvs) fb).rent
          else .jstr (keepDigitsDot (pyStr (applyFB (mergeObj kvs) fb).rent)))
          = .jstr (keepDigitsDot s)
      rw [hfill]
      rfl
    · unfold keepDigitsDot
      exact List.all_eq_true.mpr fun c hc =>
        (List.mem_filter.mp hc).2

/-- Witness for `regex_fallback_gap_fill`: an object missing `rent`
filled from the fallback value `"$1,500.00"` ends with rent
`"1500.00"`. -/
theorem regex_fallback_gap_fill_witness :
    (runParsed (.jobj []) { noFB with rent := some (("$1,500.00").toList) }).rent =
      .jstr (("1500.00").toList) := by
  have h := (regex_fallback_gap_fill.2 []
    { noFB with rent := some (("$1,500.00").toList) }
    (("$1,500.00").toList) rfl rfl (by decide)).1
  rw [h]
  rfl

/-! ## String-primitive lemmas for the recovery cascade -/

theorem leadsWith_self_append (p x : List Char) : leadsWith p (p ++ x) = true := by
  induction p with
  | nil => rfl
  | cons a t ih => simp [leadsWith, ih]

theorem leadsWith_length_le (p s : List Char) (h : leadsWith p s = true) :
    p.length ≤ s.length := by
  induction p generalizing s with
  | nil => simp
  | cons a t ih =>
    cases s with
    | nil => simp [leadsWith] at h
    | cons b u =>
      simp only [leadsWith, Bool.and_eq_true] at h
      simpa using ih u h.2

theorem leadsWith_eq_append (p s : List Char) (h : leadsWith p s = true) :
    s = p ++ s.drop p.length := by
  induction p generalizing s with
  | nil => simp
  | cons a t ih =>
    cases s with
    | nil => simp [leadsWith] at h
    | cons b u =>
      simp only [leadsWith, Bool.and_eq_true, decide_eq_true_eq] at h
      simp only [List.cons_append, List.length_cons, List.drop_succ_cons]
      rw [h.1]
      exact congrArg (b :: ·) (ih u h.2)

theorem trailsWith_append_self (x p : List Char) : trailsWith p (x ++ p) = true := by
  unfold trailsWith
  rw [List.reverse_append]
  exact leadsWith_self_append _ _

theorem trailsWith_decomp (p s : List Char) (h : trailsWith p s = true) :
    ∃ t, s = t ++ p ∧ t.length = s.length - p.length := by
  unfold trailsWith at h
  have h2 := leadsWith_eq_append _ _ h
  refine ⟨(s.reverse.drop p.reverse.length).reverse, ?_, ?_⟩
  · have h3 : s.reverse.reverse =
        (p.reverse ++ s.reverse.drop p.reverse.length).reverse :=
      congrArg List.reverse h2
    rw [List.reverse_reverse, List.reverse_append, List.reverse_reverse] at h3
    exact h3
  · simp

theorem stripL_cons_nonws (c : Char) (l : List Char) (h : isPyWs c = false) :
    stripL (c :: l) = c :: l := by
  simp [stripL, List.dropWhile_cons, h]

theorem stripR_append_nonws (l : List Char) (d : Char) (h : isPyWs d = false) :
    stripR (l ++ [d]) = l ++ [d] := by
  unfold stripR
  rw [List.reverse_append]
  simp [List.dropWhile_cons, h]

theorem stripR_append_ws (l : List Char) (d : Char) (h : isPyWs d = true) :
    stripR (l ++ [d]) = stripR l := by
  unfold stripR
  rw [List.reverse_append]
  simp [List.dropWhile_cons, h]

theorem pyStrip_sandwich (c d : Char) (l : List Char)
    (hc : isPyWs c = false) (hd : isPyWs d = false) :
    pyStrip (c :: (l ++ [d])) = c :: (l ++ [d]) := by
  unfold pyStrip
  rw [stripL_cons_nonws _ _ hc]
  have h2 : c :: (l ++ [d]) = (c :: l) ++ [d] := rfl
  rw [h2, stripR_append_nonws _ _ hd]

theorem findCh_append_of_not_mem (c : Char) (A B : List Char)
    (h : ∀ x ∈ A, x ≠ c) : findCh c (A ++ c :: B) = some A.length := by
  induction A with
  | nil => simp [findCh]
  | cons a t ih =>
    have ha : a ≠ c := h a (List.mem_cons_self a t)
    have ht := ih fun x hx => h x (List.mem_cons_of_mem a hx)
    simp only [List.cons_append, findCh, if_neg ha]
    rw [show t.append (c :: B) = t ++ c :: B from rfl, ht]
    rfl

theorem filter_range_last (n : Nat) (f : Nat → Bool) (k : Nat) (hk : k ≤ n)
    (hf : f k = true) (habove : ∀ j, k < j → j ≤ n → f j = false) :
    ((List.range (n + 1)).filter f).getLast? = some k := by
  have hsplit : n + 1 = k + 1 + (n - k) := by omega
  rw [hsplit, List.range_add]
  rw [List.filter_append]
  have h2 : (List.map (k + 1 + ·) (List.range (n - k))).filter f = [] := by
    rw [List.filter_eq_nil]
    intro a ha
    rcases List.mem_map.mp ha with ⟨j, hj, rfl⟩
    have hjlt := List.mem_range.mp hj
    rw [habove (k + 1 + j) (by omega) (by omega)]
    simp
  rw [h2, List.append_nil, List.range_succ, List.filter_append]
  simp [hf]

theorem rfindSub_of_suffix (p s : List Char) (hp : p ≠ [])
    (h : trailsWith p s = true) :
    rfindSub p s = some (s.length - p.length) := by
  rcases trailsWith_decomp p s h with ⟨t, rfl, ht⟩
  unfold rfindSub
  have hplen : 0 < p.length := List.length_pos.mpr hp
  apply filter_range_last
  · omega
  · have hdrop : (t ++ p).drop ((t ++ p).length - p.length) = p := by
      have h3 : (t ++ p).length - p.length = t.length := by simp
      rw [h3, List.drop_left]
    rw [hdrop]
    exact leadsWith_self_append p []  |>.symm ▸ (by
      have := leadsWith_self_append p ([] : List Char)
      simpa using this)
  · intro j hj hjle
    by_contra hcon
    have hlw : leadsWith p ((t ++ p).drop j) = true := by
      simpa using hcon
    have hlen := leadsWith_length_le _ _ hlw
    rw [List.length_drop] at hlen
    omega

theorem mem_dropWhile_of_not_ws (x : Char) (l : List Char)
    (hx : isJsonWs x = false) (h : x ∈ l) : x ∈ l.dropWhile isJsonWs := by
  induction l with
  | nil => simp at h
  | cons a t ih =>
    by_cases ha : isJsonWs a = true
    · rw [List.dropWhile_cons_of_pos ha]
      rcases List.mem_cons.mp h with rfl | hm
      · rw [ha] at hx
        simp at hx
      · exact ih hm
    · rw [List.dropWhile_cons_of_neg ha]
      exact h

/-! ## Decimal rendering round-trip -/

theorem natDigitsRev_eq_digits (fuel n : Nat) (h : n ≤ fuel) :
    natDigitsRev fuel n = Nat.digits 10 n := by
  induction fuel generalizing n with
  | zero =>
    have : n = 0 := by omega
    subst this
    simp [natDigitsRev]
  | succ f ih =>
    cases n with
    | zero => simp [natDigitsRev]
    | succ m =>
      rw [natDigitsRev, Nat.digits_def' (by norm_num : (1 : Nat) < 10)
        (Nat.succ_pos m)]
      rw [ih ((m + 1) / 10) (by omega)]

theorem digitChar_props : ∀ d, d < 10 →
    (Char.ofNat (48 + d)).isDigit = true ∧ (Char.ofNat (48 + d)).toNat = 48 + d
    ∧ ((Char.ofNat (48 + d)) = '0' ↔ d = 0) := by decide

theorem natChars_eq_digits (m : Nat) (hm : m ≠ 0) :
    natChars m = (Nat.digits 10 m).reverse.map fun d => Char.ofNat (48 + d) := by
  unfold natChars
  rw [if_neg hm, natDigitsRev_eq_digits m m le_rfl]

theorem natChars_all_digits (m : Nat) :
    ∀ c ∈ natChars m, c.isDigit = true := by
  intro c hc
  by_cases hm : m = 0
  · subst hm
    have h0 : natChars 0 = ['0'] := rfl
    rw [h0, List.mem_singleton] at hc
    subst hc
    decide
  · rw [natChars_eq_digits m hm] at hc
    rcases List.mem_map.mp hc with ⟨d, hd, rfl⟩
    have hdlt : d < 10 :=
      Nat.digits_lt_base (by norm_num) (List.mem_reverse.mp hd)
    exact (digitChar_props d hdlt).1

theorem digitsVal_rev_map (L : List Nat) (h : ∀ d ∈ L, d < 10) :
    digitsVal (L.reverse.map fun d => Char.ofNat (48 + d)) =
      Nat.ofDigits 10 L := by
  induction L with
  | nil => rfl
  | cons d t ih =>
    have hd : d < 10 := h d (List.mem_cons_self d t)
    have ht : ∀ x ∈ t, x < 10 := fun x hx => h x (List.mem_cons_of_mem d hx)
    rw [List.reverse_cons, List.map_append, Nat.ofDigits_cons]
    unfold digitsVal
    rw [List.foldl_append]
    have ihv := ih ht
    unfold digitsVal at ihv
    rw [ihv]
    simp only [List.map_cons, List.map_nil, List.foldl_cons, List.foldl_nil]
    rw [(digitChar_props d hd).2.1]
    push_cast
    ring_nf
    omega

theorem digitsVal_natChars (m : Nat) : digitsVal (natChars m) = m := by
  by_cases hm : m = 0
  · subst hm
    rfl
  · rw [natChars_eq_digits m hm,
      digitsVal_rev_map _ fun d hd => Nat.digits_lt_base (by norm_num) hd]
    exact_mod_cast Nat.ofDigits_digits 10 m

theorem natChars_shape (m : Nat) :
    ∃ c t, natChars m = c :: t ∧ c.isDigit = true ∧ (m ≠ 0 → c ≠ '0') := by
  by_cases hm : m = 0
  · subst hm
    exact ⟨'0', [], rfl, by decide, fun h => absurd rfl h⟩
  · rw [natChars_eq_digits m hm]
    have hne : Nat.digits 10 m ≠ [] := Nat.digits_ne_nil_iff_ne_zero.mpr hm
    have hrevne : (Nat.digits 10 m).reverse ≠ [] := by
      simpa using hne
    rcases List.exists_cons_of_ne_nil hrevne with ⟨d, t, hdt⟩
    refine ⟨Char.ofNat (48 + d), t.map fun d => Char.ofNat (48 + d), by
      rw [hdt]; rfl, ?_, ?_⟩
    · have hdlt : d < 10 := Nat.digits_lt_base (by norm_num)
        (List.mem_reverse.mp (hdt ▸ List.mem_cons_self d t))
      exact (digitChar_props d hdlt).1
    · intro _ hc
      have hdlt : d < 10 := Nat.digits_lt_base (by norm_num)
        (List.mem_reverse.mp (hdt ▸ List.mem_cons_self d t))
      have hd0 : d = 0 := ((digitChar_props d hdlt).2.2).mp hc
      have hlast := Nat.getLast_digit_ne_zero 10 hm
      have hh : (Nat.digits 10 m).getLast? = some d := by
        rw [← List.head?_reverse, hdt]
        rfl
      have hgl : (Nat.digits 10 m).getLast hne = d := by
        have := List.getLast?_eq_getLast (Nat.digits 10 m) hne
        rw [this] at hh
        exact Option.some.inj hh
      exact absurd (hgl ▸ hd0) hlast

/-! ## Parser round-trip on rendered values -/

theorem not_ws_of_alnum (c : Char) (h : c.isAlphanum = true) :
    isJsonWs c = false := by
  by_contra hw
  have hw2 : isJsonWs c = true := by simpa using hw
  simp only [isJsonWs, Bool.or_eq_true, decide_eq_true_eq] at hw2
  rcases hw2 with ((h1 | h1) | h1) | h1 <;> subst h1 <;> exact absurd h (by decide)

theorem alnum_of_digit (c : Char) (h : c.isDigit = true) :
    c.isAlphanum = true := by
  simp [Char.isAlphanum, h]

theorem skipWs_cons_nonws (c : Char) (l : List Char) (h : isJsonWs c = false) :
    skipWs (c :: l) = c :: l := by
  simp [skipWs, List.dropWhile_cons, h]

theorem parseStrBody_render (s rest : List Char) (h : wfStrChars s = true) :
    parseStrBody (s ++ '"' :: rest) = some (s, rest) := by
  induction s with
  | nil =>
    show parseStrBody ('"' :: rest) = some ([], rest)
    rw [parseStrBody.eq_def]
    simp
  | cons a t ih =>
    simp only [wfStrChars, List.all_cons, Bool.and_eq_true, decide_eq_true_eq] at h
    obtain ⟨⟨⟨h1, h2⟩, h3⟩, ht⟩ := h
    show parseStrBody (a :: (t ++ '"' :: rest)) = some (a :: t, rest)
    rw [parseStrBody.eq_def]
    dsimp only
    rw [if_neg h2, if_neg h3, if_neg (by omega)]
    rw [ih (by simpa [wfStrChars] using ht)]
    rfl

theorem takeWhile_append_of_all (p : Char → Bool) (l r : List Char)
    (hl : ∀ x ∈ l, p x = true) :
    (l ++ r).takeWhile p = l ++ r.takeWhile p := by
  induction l with
  | nil => rfl
  | cons a t ih =>
    have ha := hl a (List.mem_cons_self a t)
    simp only [List.cons_append, List.takeWhile_cons, ha, if_true]
    rw [ih fun x hx => hl x (List.mem_cons_of_mem a hx)]

theorem dropWhile_append_of_all (p : Char → Bool) (l r : List Char)
    (hl : ∀ x ∈ l, p x = true) :
    (l ++ r).dropWhile p = r.dropWhile p := by
  induction l with
  | nil => rfl
  | cons a t ih =>
    have ha := hl a (List.mem_cons_self a t)
    simp only [List.cons_append, List.dropWhile_cons, ha, if_true]
    exact ih fun x hx => hl x (List.mem_cons_of_mem a hx)

theorem takeWhile_noDigitHead (r : List Char) (h : noDigitHead r) :
    r.takeWhile Char.isDigit = [] := by
  cases r with
  | nil => rfl
  | cons c t =>
    simp only [noDigitHead] at h
    simp [List.takeWhile_cons, h]

theorem dropWhile_noDigitHead (r : List Char) (h : noDigitHead r) :
    r.dropWhile Char.isDigit = r := by
  cases r with
  | nil => rfl
  | cons c t =>
    simp only [noDigitHead] at h
    simp [List.dropWhile_cons, h]

theorem parseNatTok_natChars (m : Nat) (rest : List Char) (h : noDigitHead rest) :
    parseNatTok (natChars m ++ rest) = some (m, rest) := by
  by_cases hm : m = 0
  · subst hm
    rfl
  · rcases natChars_shape m with ⟨c, t, hct, hcd, hc0⟩
    rw [hct]
    show parseNatTok (c :: (t ++ rest)) = some (m, rest)
    rw [parseNatTok, if_neg (hc0 hm), if_pos hcd]
    have hall : ∀ x ∈ c :: t, x.isDigit = true := by
      rw [← hct]
      exact natChars_all_digits m
    have htake : (c :: (t ++ rest)).takeWhile Char.isDigit = c :: t := by
      have := takeWhile_append_of_all Char.isDigit (c :: t) rest hall
      simp only [List.cons_append] at this
      rw [this, takeWhile_noDigitHead rest h, List.append_nil]
    have hdrop : (c :: (t ++ rest)).dropWhile Char.isDigit = rest := by
      have := dropWhile_append_of_all Char.isDigit (c :: t) rest hall
      simp only [List.cons_append] at this
      rw [this, dropWhile_noDigitHead rest h]
    rw [htake, hdrop, ← hct, digitsVal_natChars]

/-- The head character of a rendering: never whitespace nor one of the
structural separators that close a surrounding context. -/
theorem render_head (v : JVal) :
    ∃ c t, render v = c :: t ∧ isJsonWs c = false ∧
      c ≠ ']' ∧ c ≠ '}' ∧ c ≠ ',' ∧ c ≠ ':' := by
  cases v with
  | jnull => exact ⟨'n', _, rfl, by decide, by decide, by decide, by decide, by decide⟩
  | jbool b =>
    cases b with
    | true => exact ⟨'t', _, rfl, by decide, by decide, by decide, by decide, by decide⟩
    | false => exact ⟨'f', _, rfl, by decide, by decide, by decide, by decide, by decide⟩
  | jint n =>
    show ∃ c t, intChars n = c :: t ∧ _
    unfold intChars
    by_cases hn : n < 0
    · rw [if_pos hn]
      exact ⟨'-', _, rfl, by decide, by decide, by decide, by decide, by decide⟩
    · rw [if_neg hn]
      rcases natChars_shape n.toNat with ⟨c, t, hct, hcd, -⟩
      refine ⟨c, t, hct, not_ws_of_alnum c (alnum_of_digit c hcd), ?_, ?_, ?_, ?_⟩
      all_goals intro he; subst he; exact absurd hcd (by decide)
  | jstr s => exact ⟨'"', _, rfl, by decide, by decide, by decide, by decide, by decide⟩
  | jarr xs => exact ⟨'[', _, rfl, by decide, by decide, by decide, by decide, by decide⟩
  | jobj kvs => exact ⟨'{', _, rfl, by decide, by decide, by decide, by decide, by decide⟩

theorem jcost_pos (v : JVal) : 1 ≤ jcost v := by
  cases v <;> simp [jcost] <;> omega

theorem jcostElems_pos (xs : List JVal) : 0 ≤ jcostElems xs := Nat.zero_le _

theorem parseVal_step (f : Nat) (c : Char) (t : List Char)
    (hws : isJsonWs c = false) :
    parseVal (f + 1) (c :: t) =
      if c = '{' then parseObjBody f t
      else if c = '[' then parseArrBody f t
      else if c = '"' then (parseStrBody t).map fun p => (JVal.jstr p.1, p.2)
      else if c = '-' then
        (parseNatTok t).map fun p => (JVal.jint (-(p.1 : Int)), p.2)
      else parseScalarTok (c :: t) := by
  rw [parseVal]
  rw [skipWs_cons_nonws c t hws]

theorem parseArrBody_step (f : Nat) (c : Char) (t : List Char)
    (hws : isJsonWs c = false) :
    parseArrBody (f + 1) (c :: t) =
      if c = ']' then some (JVal.jarr [], t)
      else (parseElems f (c :: t)).map fun p => (JVal.jarr p.1, p.2) := by
  rw [parseArrBody]
  rw [skipWs_cons_nonws c t hws]

theorem parseObjBody_step (f : Nat) (c : Char) (t : List Char)
    (hws : isJsonWs c = false) :
    parseObjBody (f + 1) (c :: t) =
      if c = '}' then some (JVal.jobj [], t)
      else (parseMembers f (c :: t)).map fun p => (JVal.jobj p.1, p.2) := by
  rw [parseObjBody]
  rw [skipWs_cons_nonws c t hws]

theorem digit_lit_ne (c d : Char) (hc : c.isDigit = true) (hd : d.isDigit = false) :
    ¬c = d := by
  intro he
  subst he
  rw [hc] at hd
  exact absurd hd (by simp)

theorem leadsWith_lit_false (c d : Char) (p X : List Char) (h : ¬d = c) :
    leadsWith (d :: p) (c :: X) = false := by
  simp [leadsWith, h]

theorem parseScalarTok_digit (c : Char) (t : List Char) (hc : c.isDigit = true) :
    parseScalarTok (c :: t) =
      (parseNatTok (c :: t)).map fun p => (JVal.jint (p.1 : Int), p.2) := by
  unfold parseScalarTok
  rw [leadsWith_lit_false c 't' _ _ (fun he => digit_lit_ne c 't' hc (by decide) he.symm)]
  rw [leadsWith_lit_false c 'f' _ _ (fun he => digit_lit_ne c 'f' hc (by decide) he.symm)]
  rw [leadsWith_lit_false c 'n' _ _ (fun he => digit_lit_ne c 'n' hc (by decide) he.symm)]
  simp [hc]

mutual

theorem rtV (v : JVal) : ∀ (fuel : Nat) (rest : List Char),
    wfJ v = true → jcost v ≤ fuel → noDigitHead rest →
    parseVal fuel (render v ++ rest) = some (v, rest) := by
  intro fuel rest hwf hcost hnd
  obtain ⟨f, rfl⟩ : ∃ f, fuel = f + 1 :=
    ⟨fuel - 1, by have := jcost_pos v; omega⟩
  cases v with
  | jnull => rfl
  | jbool b => cases b <;> rfl
  | jint n =>
    show parseVal (f + 1) (intChars n ++ rest) = some (.jint n, rest)
    unfold intChars
    by_cases hn : n < 0
    · rw [if_pos hn]
      show parseVal (f + 1) ('-' :: (natChars n.natAbs ++ rest)) = _
      rw [parseVal_step f _ _ (by decide), if_neg (by decide), if_neg (by decide),
        if_neg (by decide), if_pos rfl, parseNatTok_natChars _ _ hnd]
      have hval : -((n.natAbs : Nat) : Int) = n := by omega
      show some (JVal.jint (-(n.natAbs : Int)), rest) = some (JVal.jint n, rest)
      rw [hval]
    · rw [if_neg hn]
      rcases natChars_shape n.toNat with ⟨c, t0, hct, hcd, -⟩
      rw [hct]
      show parseVal (f + 1) (c :: (t0 ++ rest)) = _
      rw [parseVal_step f _ _ (not_ws_of_alnum c (alnum_of_digit c hcd)),
        if_neg (digit_lit_ne c '{' hcd (by decide)),
        if_neg (digit_lit_ne c '[' hcd (by decide)),
        if_neg (digit_lit_ne c '"' hcd (by decide)),
        if_neg (digit_lit_ne c '-' hcd (by decide)),
        parseScalarTok_digit c _ hcd]
      have hagain : c :: (t0 ++ rest) = natChars n.toNat ++ rest := by
        rw [hct]
        rfl
      rw [hagain, parseNatTok_natChars _ _ hnd]
      have hval : ((n.toNat : Nat) : Int) = n := by omega
      show some (JVal.jint ((n.toNat : Nat) : Int), rest) = some (JVal.jint n, rest)
      rw [hval]
  | jstr s =>
    show parseVal (f + 1) (('"' :: (s ++ ['"'])) ++ rest) = some (.jstr s, rest)
    have hsh : ('"' :: (s ++ ['"'])) ++ rest = '"' :: (s ++ '"' :: rest) := by
      simp
    rw [hsh, parseVal_step f _ _ (by decide), if_neg (by decide),
      if_neg (by decide), if_pos rfl,
      parseStrBody_render s rest (by simpa [wfJ] using hwf)]
    rfl
  | jarr xs =>
    show parseVal (f + 1) (('[' :: (renderElems xs ++ [']'])) ++ rest) =
      some (.jarr xs, rest)
    have hsh : ('[' :: (renderElems xs ++ [']'])) ++ rest =
        '[' :: (renderElems xs ++ ']' :: rest) := by
      simp
    rw [hsh, parseVal_step f _ _ (by decide), if_neg (by decide), if_pos rfl]
    have hcost2 : jcost (JVal.jarr xs) = 2 + jcostElems xs := by rfl
    obtain ⟨g, rfl⟩ : ∃ g, f = g + 1 := ⟨f - 1, by omega⟩
    cases xs with
    | nil => rfl
    | cons x t =>
      rcases render_head x with ⟨c0, t0, hc0, hws0, hne1, hne2, hne3, hne4⟩
      have hstep : parseArrBody (g + 1) (renderElems (x :: t) ++ ']' :: rest) =
          (parseElems g (renderElems (x :: t) ++ ']' :: rest)).map
            fun p => (JVal.jarr p.1, p.2) := by
        cases t with
        | nil =>
          have hshape : renderElems [x] ++ ']' :: rest =
              c0 :: (t0 ++ ']' :: rest) := by
            show render x ++ ']' :: rest = _
            rw [hc0]
            simp
          rw [hshape, parseArrBody_step g _ _ hws0, if_neg hne1, ← hshape]
        | cons y t2 =>
          have hshape : renderElems (x :: y :: t2) ++ ']' :: rest =
              c0 :: (t0 ++ (',' :: (renderElems (y :: t2) ++ ']' :: rest))) := by
            show (render x ++ ',' :: renderElems (y :: t2)) ++ ']' :: rest = _
            rw [hc0]
            simp
          rw [hshape, parseArrBody_step g _ _ hws0, if_neg hne1, ← hshape]
      rw [hstep]
      rw [rtElems (x :: t) g rest (by simp) (by simpa [wfJ] using hwf)
        (by rw [hcost2] at hcost; omega)]
      rfl
  | jobj kvs =>
    show parseVal (f + 1) (('{' :: (renderMembers kvs ++ ['}'])) ++ rest) =
      some (.jobj kvs, rest)
    have hsh : ('{' :: (renderMembers kvs ++ ['}'])) ++ rest =
        '{' :: (renderMembers kvs ++ '}' :: rest) := by
      simp
    rw [hsh, parseVal_step f _ _ (by decide), if_pos rfl]
    have hcost2 : jcost (JVal.jobj kvs) = 2 + jcostMembers kvs := by rfl
    obtain ⟨g, rfl⟩ : ∃ g, f = g + 1 := ⟨f - 1, by omega⟩
    cases kvs with
    | nil => rfl
    | cons kv t =>
      have hshape : renderMembers (kv :: t) ++ '}' :: rest =
          '"' :: ((renderMembers (kv :: t) ++ '}' :: rest).drop 1) := by
        cases kv with
        | mk k v =>
          cases t with
          | nil => simp [renderMembers]
          | cons kv2 t2 => simp [renderMembers]
      rw [hshape, parseObjBody_step g _ _ (by decide), if_neg (by decide), ← hshape]
      rw [rtMembers (kv :: t) g rest (by simp) (by simpa [wfJ] using hwf)
        (by rw [hcost2] at hcost; omega)]
      rfl

theorem rtElems (xs : List JVal) : ∀ (fuel : Nat) (rest : List Char),
    xs ≠ [] → wfElems xs = true → jcostElems xs ≤ fuel →
    parseElems fuel (renderElems xs ++ ']' :: rest) = some (xs, rest) := by
  intro fuel rest hne hwf hcost
  cases xs with
  | nil => exact absurd rfl hne
  | cons x t =>
    have hcost2 : jcostElems (x :: t) = 1 + jcost x + jcostElems t := by rfl
    obtain ⟨f, rfl⟩ : ∃ f, fuel = f + 1 :=
      ⟨fuel - 1, by rw [hcost2] at hcost; omega⟩
    have hwf2 : wfJ x = true ∧ wfElems t = true := by
      simpa [wfElems, Bool.and_eq_true] using hwf
    cases t with
    | nil =>
      show parseElems (f + 1) (render x ++ ']' :: rest) = some ([x], rest)
      rw [parseElems]
      rw [rtV x f (']' :: rest) hwf2.1 (by rw [hcost2] at hcost; omega)
        (by simp [noDigitHead])]
      rfl
    | cons y t2 =>
      show parseElems (f + 1)
        ((render x ++ ',' :: renderElems (y :: t2)) ++ ']' :: rest) =
        some (x :: y :: t2, rest)
      have hsh : (render x ++ ',' :: renderElems (y :: t2)) ++ ']' :: rest =
          render x ++ ',' :: (renderElems (y :: t2) ++ ']' :: rest) := by
        simp
      rw [hsh, parseElems]
      rw [rtV x f (',' :: (renderElems (y :: t2) ++ ']' :: rest)) hwf2.1
        (by rw [hcost2] at hcost; omega) (by simp [noDigitHead])]
      show (parseElems f (renderElems (y :: t2) ++ ']' :: rest)).map
          (fun p => (x :: p.1, p.2)) = some (x :: y :: t2, rest)
      rw [rtElems (y :: t2) f rest (by simp) hwf2.2
        (by rw [hcost2] at hcost; omega)]
      rfl

theorem rtMembers (kvs : List (List Char × JVal)) :
    ∀ (fuel : Nat) (rest : List Char),
    kvs ≠ [] → wfMembers kvs = true → jcostMembers kvs ≤ fuel →
    parseMembers fuel (renderMembers kvs ++ '}' :: rest) = some (kvs, rest) := by
  intro fuel rest hne hwf hcost
  cases kvs with
  | nil => exact absurd rfl hne
  | cons kv t =>
    cases kv with
    | mk k v =>
      have hcost2 : jcostMembers ((k, v) :: t) = 1 + jcost v + jcostMembers t := by
        rfl
      obtain ⟨f, rfl⟩ : ∃ f, fuel = f + 1 :=
        ⟨fuel - 1, by rw [hcost2] at hcost; omega⟩
      have hwf2 : wfStrChars k = true ∧ wfJ v = true ∧ wfMembers t = true := by
        simpa [wfMembers, Bool.and_eq_true, and_assoc] using hwf
      cases t with
      | nil =>
        show parseMembers (f + 1)
          (('"' :: (k ++ '"' :: ':' :: render v)) ++ '}' :: rest) =
          some ([(k, v)], rest)
        have hsh : ('"' :: (k ++ '"' :: ':' :: render v)) ++ '}' :: rest =
            '"' :: (k ++ '"' :: ':' :: (render v ++ '}' :: rest)) := by
          simp
        rw [hsh, parseMembers]
        rw [skipWs_cons_nonws _ _ (by decide)]
        show (match parseStrBody (k ++ '"' :: ':' :: (render v ++ '}' :: rest)) with
          | none => none
          | some (k, r2) =>
            match skipWs r2 with
            | ':' :: r3 =>
              match parseVal f r3 with
              | none => none
              | some (v, r4) =>
                match skipWs r4 with
                | ',' :: r5 =>
                  (parseMembers f r5).map fun p => ((k, v) :: p.1, p.2)
                | '}' :: r5 => some ([(k, v)], r5)
                | _ => none
            | _ => none) = some ([(k, v)], rest)
        rw [parseStrBody_render k _ hwf2.1]
        show (match skipWs (':' :: (render v ++ '}' :: rest)) with
          | ':' :: r3 =>
            match parseVal f r3 with
            | none => none
            | some (v, r4) =>
              match skipWs r4 with
              | ',' :: r5 =>
                (parseMembers f r5).map fun p => ((k, v) :: p.1, p.2)
              | '}' :: r5 => some ([(k, v)], r5)
              | _ => none
          | _ => none) = some ([(k, v)], rest)
        rw [skipWs_cons_nonws _ _ (by decide)]
        show (match parseVal f (render v ++ '}' :: rest) with
          | none => none
          | some (v, r4) =>
            match skipWs r4 with
            | ',' :: r5 =>
              (parseMembers f r5).map fun p => ((k, v) :: p.1, p.2)
            | '}' :: r5 => some ([(k, v)], r5)
            | _ => none) = some ([(k, v)], rest)
        rw [rtV v f ('}' :: rest) hwf2.2.1 (by rw [hcost2] at hcost; omega)
          (by simp [noDigitHead])]
        rfl
      | cons kv2 t2 =>
        show parseMembers (f + 1)
          ((('"' :: (k ++ '"' :: ':' :: render v)) ++
            ',' :: renderMembers (kv2 :: t2)) ++ '}' :: rest) =
          some ((k, v) :: kv2 :: t2, rest)
        have hsh : (('"' :: (k ++ '"' :: ':' :: render v)) ++
            ',' :: renderMembers (kv2 :: t2)) ++ '}' :: rest =
            '"' :: (k ++ '"' :: ':' ::
              (render v ++ ',' :: (renderMembers (kv2 :: t2) ++ '}' :: rest))) := by
          simp
        rw [hsh, parseMembers]
        rw [skipWs_cons_nonws _ _ (by decide)]
        show (match parseStrBody (k ++ '"' :: ':' ::
            (render v ++ ',' :: (renderMembers (kv2 :: t2) ++ '}' :: rest))) with
          | none => none
          | some (k, r2) =>
            match skipWs r2 with
            | ':' :: r3 =>
              match parseVal f r3 with
              | none => none
              | some (v, r4) =>
                match skipWs r4 with
                | ',' :: r5 =>
                  (parseMembers f r5).map fun p => ((k, v) :: p.1, p.2)
                | '}' :: r5 => some ([(k, v)], r5)
                | _ => none
            | _ => none) = some ((k, v) :: kv2 :: t2, rest)
        rw [parseStrBody_render k _ hwf2.1]
        show (match skipWs (':' ::
            (render v ++ ',' :: (renderMembers (kv2 :: t2) ++ '}' :: rest))) with
          | ':' :: r3 =>
            match parseVal f r3 with
            | none => none
            | some (v, r4) =>
              match skipWs r4 with
              | ',' :: r5 =>
                (parseMembers f r5).map fun p => ((k, v) :: p.1, p.2)
              | '}' :: r5 => some ([(k, v)], r5)
              | _ => none
          | _ => none) = some ((k, v) :: kv2 :: t2, rest)
        rw [skipWs_cons_nonws _ _ (by decide)]
        show (match parseVal f
            (render v ++ ',' :: (renderMembers (kv2 :: t2) ++ '}' :: rest)) with
          | none => none
          | some (v, r4) =>
            match skipWs r4 with
            | ',' :: r5 =>
              (parseMembers f r5).map fun p => ((k, v) :: p.1, p.2)
            | '}' :: r5 => some ([(k, v)], r5)
            | _ => none) = some ((k, v) :: kv2 :: t2, rest)
        rw [rtV v f (',' :: (renderMembers (kv2 :: t2) ++ '}' :: rest)) hwf2.2.1
          (by rw [hcost2] at hcost; omega) (by simp [noDigitHead])]
        show (parseMembers f (renderMembers (kv2 :: t2) ++ '}' :: rest)).map
            (fun p => ((k, v) :: p.1, p.2)) = some ((k, v) :: kv2 :: t2, rest)
        rw [rtMembers (kv2 :: t2) f rest (by simp) hwf2.2.2
          (by rw [hcost2] at hcost; omega)]
        rfl

end

theorem render_length_pos (v : JVal) : 1 ≤ (render v).length := by
  cases v with
  | jnull => decide
  | jbool b => cases b <;> decide
  | jint n =>
    show 1 ≤ (intChars n).length
    unfold intChars
    by_cases hn : n < 0
    · rw [if_pos hn]
      simp
    · rw [if_neg hn]
      rcases natChars_shape n.toNat with ⟨c, t, hct, -, -⟩
      rw [hct]
      simp
  | jstr s => simp [render]
  | jarr xs => simp [render]
  | jobj kvs => simp [render]

mutual

theorem jcost_le_render (v : JVal) : jcost v ≤ 2 * (render v).length := by
  cases v with
  | jnull => decide
  | jbool b => cases b <;> decide
  | jint n =>
    have h1 := render_length_pos (JVal.jint n)
    have h2 : jcost (JVal.jint n) = 1 := rfl
    omega
  | jstr s =>
    have h2 : jcost (JVal.jstr s) = 1 := rfl
    have h1 := render_length_pos (JVal.jstr s)
    omega
  | jarr xs =>
    have h1 : jcost (JVal.jarr xs) = 2 + jcostElems xs := rfl
    have h2 : (render (JVal.jarr xs)).length = (renderElems xs).length + 2 := by
      show ('[' :: (renderElems xs ++ [']'])).length = _
      simp
    have h3 := jcostElems_le_render xs
    omega
  | jobj kvs =>
    have h1 : jcost (JVal.jobj kvs) = 2 + jcostMembers kvs := rfl
    have h2 : (render (JVal.jobj kvs)).length = (renderMembers kvs).length + 2 := by
      show ('{' :: (renderMembers kvs ++ ['}'])).length = _
      simp
    have h3 := jcostMembers_le_render kvs
    omega

theorem jcostElems_le_render (xs : List JVal) :
    jcostElems xs ≤ 2 * (renderElems xs).length + 1 := by
  cases xs with
  | nil => simp [jcostElems, renderElems]
  | cons x t =>
    have h1 : jcostElems (x :: t) = 1 + jcost x + jcostElems t := rfl
    have h2 := jcost_le_render x
    cases t with
    | nil =>
      have h3 : renderElems [x] = render x := rfl
      have h4 : jcostElems ([] : List JVal) = 0 := rfl
      rw [h1, h3, h4]
      omega
    | cons y t2 =>
      have h3 : renderElems (x :: y :: t2) = render x ++ ',' :: renderElems (y :: t2) := rfl
      have h5 := jcostElems_le_render (y :: t2)
      rw [h1, h3]
      simp only [List.length_append, List.length_cons]
      omega

theorem jcostMembers_le_render (kvs : List (List Char × JVal)) :
    jcostMembers kvs ≤ 2 * (renderMembers kvs).length + 1 := by
  cases kvs with
  | nil => simp [jcostMembers, renderMembers]
  | cons kv t =>
    cases kv with
    | mk k v =>
      have h1 : jcostMembers ((k, v) :: t) = 1 + jcost v + jcostMembers t := rfl
      have h2 := jcost_le_render v
      cases t with
      | nil =>
        have h3 : renderMembers [(k, v)] = '"' :: (k ++ '"' :: ':' :: render v) := rfl
        have h4 : jcostMembers ([] : List (List Char × JVal)) = 0 := rfl
        rw [h1, h3, h4]
        simp only [List.length_cons, List.length_append]
        omega
      | cons kv2 t2 =>
        have h3 : renderMembers ((k, v) :: kv2 :: t2) =
            ('"' :: (k ++ '"' :: ':' :: render v)) ++ ',' :: renderMembers (kv2 :: t2) := rfl
        have h5 := jcostMembers_le_render (kv2 :: t2)
        rw [h1, h3]
        simp only [List.length_append, List.length_cons]
        omega

end

theorem parseWhole_render (v : JVal) (hwf : wfJ v = true) :
    parseWhole (render v) = some v := by
  have hfuel : jcost v ≤ 3 * (render v).length + 3 := by
    have h1 := jcost_le_render v
    omega
  have h := rtV v (3 * (render v).length + 3) [] hwf hfuel trivial
  rw [List.append_nil] at h
  unfold parseWhole
  rw [h]
  rfl

theorem alnum_ne_lit (c d : Char) (hc : c.isAlphanum = true)
    (hd : d.isAlphanum = false) : ¬c = d := by
  intro he
  subst he
  rw [hc] at hd
  exact absurd hd (by simp)

theorem all_takeWhile_pred (p : Char → Bool) (l : List Char) :
    (l.takeWhile p).all p = true := by
  induction l with
  | nil => rfl
  | cons a t ih =>
    by_cases ha : p a = true
    · rw [List.takeWhile_cons_of_pos ha]
      simp [ha, ih]
    · rw [List.takeWhile_cons_of_neg (by simpa using ha)]
      rfl

theorem parseNatTok_consumed (s : List Char) (m : Nat) (r : List Char)
    (h : parseNatTok s = some (m, r)) :
    ∃ pre, pre ≠ [] ∧ pre.all Char.isDigit = true ∧ s = pre ++ r := by
  cases s with
  | nil => exact absurd h (by simp [parseNatTok])
  | cons c rest =>
    unfold parseNatTok at h
    dsimp only at h
    by_cases h0 : c = '0'
    · rw [if_pos h0] at h
      simp only [Option.some.injEq, Prod.mk.injEq] at h
      subst h0
      exact ⟨['0'], by simp, by decide, by rw [← h.2]; rfl⟩
    · rw [if_neg h0] at h
      by_cases hd : c.isDigit = true
      · rw [if_pos hd] at h
        simp only [Option.some.injEq, Prod.mk.injEq] at h
        refine ⟨(c :: rest).takeWhile Char.isDigit, ?_, all_takeWhile_pred _ _, ?_⟩
        · rw [List.takeWhile_cons_of_pos hd]
          simp
        · rw [← h.2]
          exact (List.takeWhile_append_dropWhile Char.isDigit (c :: rest)).symm
      · rw [if_neg hd] at h
        exact absurd h (by simp)

theorem parseVal_alnum_head (f : Nat) (c : Char) (s : List Char) (v : JVal)
    (r : List Char) (hc : c.isAlphanum = true)
    (h : parseVal f (c :: s) = some (v, r)) :
    ∃ pre, pre ≠ [] ∧ pre.all Char.isAlphanum = true ∧ c :: s = pre ++ r := by
  cases f with
  | zero => exact absurd h (by simp [parseVal])
  | succ f =>
    rw [parseVal_step f c s (not_ws_of_alnum c hc),
      if_neg (alnum_ne_lit c '{' hc (by decide)),
      if_neg (alnum_ne_lit c '[' hc (by decide)),
      if_neg (alnum_ne_lit c '"' hc (by decide)),
      if_neg (alnum_ne_lit c '-' hc (by decide))] at h
    unfold parseScalarTok at h
    by_cases h1 : leadsWith ['t', 'r', 'u', 'e'] (c :: s) = true
    · rw [if_pos h1] at h
      simp only [Option.some.injEq, Prod.mk.injEq] at h
      refine ⟨['t', 'r', 'u', 'e'], by simp, by decide, ?_⟩
      have he := leadsWith_eq_append _ _ h1
      rw [← h.2]
      exact he
    · rw [if_neg h1] at h
      by_cases h2 : leadsWith ['f', 'a', 'l', 's', 'e'] (c :: s) = true
      · rw [if_pos h2] at h
        simp only [Option.some.injEq, Prod.mk.injEq] at h
        refine ⟨['f', 'a', 'l', 's', 'e'], by simp, by decide, ?_⟩
        have he := leadsWith_eq_append _ _ h2
        rw [← h.2]
        exact he
      · rw [if_neg h2] at h
        by_cases h3 : leadsWith ['n', 'u', 'l', 'l'] (c :: s) = true
        · rw [if_pos h3] at h
          simp only [Option.some.injEq, Prod.mk.injEq] at h
          refine ⟨['n', 'u', 'l', 'l'], by simp, by decide, ?_⟩
          have he := leadsWith_eq_append _ _ h3
          rw [← h.2]
          exact he
        · rw [if_neg h3] at h
          dsimp only at h
          by_cases hd : c.isDigit = true
          · rw [if_pos hd] at h
            cases hp : parseNatTok (c :: s) with
            | none =>
              rw [hp] at h
              exact absurd h (by simp)
            | some p =>
              rw [hp] at h
              simp only [Option.map_some', Option.some.injEq, Prod.mk.injEq] at h
              rcases parseNatTok_consumed (c :: s) p.1 p.2 (by rw [hp]) with
                ⟨pre, hne, hall, heq⟩
              refine ⟨pre, hne, ?_, by rw [← h.2]; exact heq⟩
              rw [List.all_eq_true] at hall ⊢
              exact fun x hx => alnum_of_digit x (hall x hx)
          · rw [if_neg hd] at h
            exact absurd h (by simp)

theorem parseWhole_alnum_prefix_none (t M s : List Char) (h1 : t ≠ [])
    (h2 : t.all Char.isAlphanum = true)
    (hs : s = t ++ '\n' :: '{' :: M) :
    parseWhole s = none := by
  subst hs
  cases t with
  | nil => exact absurd rfl h1
  | cons c t2 =>
    rw [show (c :: t2) ++ '\n' :: '{' :: M = c :: (t2 ++ '\n' :: '{' :: M) from rfl]
    unfold parseWhole
    cases hp : parseVal (3 * (c :: (t2 ++ '\n' :: '{' :: M)).length + 3)
        (c :: (t2 ++ '\n' :: '{' :: M)) with
    | none => rfl
    | some p =>
      have hc : c.isAlphanum = true := by
        rw [List.all_eq_true] at h2
        exact h2 c (by simp)
      rcases parseVal_alnum_head (3 * (c :: (t2 ++ '\n' :: '{' :: M)).length + 3)
          c (t2 ++ '\n' :: '{' :: M) p.1 p.2 hc (by rw [hp])
          with ⟨pre, hne, hall, heq⟩
      have hmem : '{' ∈ p.2 := by
        have heq2 : pre ++ p.2 = (c :: t2) ++ '\n' :: '{' :: M := heq.symm
        rw [List.append_eq_append_iff] at heq2
        rcases heq2 with ⟨a2, ha1, ha2⟩ | ⟨c2, hc1, hc2⟩
        · rw [ha2]
          simp
        · cases c2 with
          | nil =>
            have hr : p.2 = '\n' :: '{' :: M := by simpa using hc2.symm
            rw [hr]
            simp
          | cons e c3 =>
            have he : e = '\n' := by
              have h5 := hc2
              simp at h5
              exact h5.1.symm
            have hemem : e ∈ pre := by
              rw [hc1]
              simp
            rw [List.all_eq_true] at hall
            have h6 := hall e hemem
            rw [he] at h6
            exact absurd h6 (by decide)
      have hne2 : skipWs p.2 ≠ [] :=
        List.ne_nil_of_mem (mem_dropWhile_of_not_ws '{' p.2 (by decide) hmem)
      show (if (skipWs p.2).isEmpty = true then some p.1 else none) = none
      rw [if_neg (by simpa [List.isEmpty_iff] using hne2)]

theorem parseVal_backtick (f : Nat) (X : List Char) :
    parseVal f ('`' :: X) = none := by
  cases f with
  | zero => rfl
  | succ f =>
    rw [parseVal_step f _ _ (by decide), if_neg (by decide), if_neg (by decide),
      if_neg (by decide), if_neg (by decide)]
    unfold parseScalarTok
    rw [leadsWith_lit_false '`' 't' _ _ (by decide),
      leadsWith_lit_false '`' 'f' _ _ (by decide),
      leadsWith_lit_false '`' 'n' _ _ (by decide)]
    show (if ('`').isDigit = true then _ else none) = none
    rw [if_neg (by decide)]

theorem parseWhole_fence3_none (X : List Char) :
    parseWhole (fence3 ++ X) = none := by
  unfold parseWhole
  rw [show fence3 ++ X = '`' :: ('`' :: '`' :: X) from rfl, parseVal_backtick]

theorem leadsWith_append_left (p q s : List Char) :
    leadsWith (p ++ q) (p ++ s) = leadsWith q s := by
  induction p with
  | nil => rfl
  | cons a t ih => simp [leadsWith, ih]

theorem leadsWith_alnum_cut (p : List Char) : ∀ (s : List Char) (c : Char)
    (r : List Char), p.all Char.isAlphanum = true → c.isAlphanum = false →
    leadsWith p (s ++ c :: r) = true → leadsWith p s = true := by
  induction p with
  | nil => intro s c r _ _ _; rfl
  | cons a t ih =>
    intro s c r hall hc h
    have ha : a.isAlphanum = true ∧ t.all Char.isAlphanum = true := by
      simpa using hall
    cases s with
    | nil =>
      exfalso
      rw [List.nil_append] at h
      simp only [leadsWith, Bool.and_eq_true, decide_eq_true_eq] at h
      rw [h.1] at ha
      rw [ha.1] at hc
      exact absurd hc (by simp)
    | cons b s2 =>
      simp only [List.cons_append, leadsWith, Bool.and_eq_true,
        decide_eq_true_eq] at h ⊢
      exact ⟨h.1, ih s2 c r ha.2 hc h.2⟩

theorem all_drop_alnum (l : List Char) (n : Nat)
    (h : l.all Char.isAlphanum = true) : (l.drop n).all Char.isAlphanum = true := by
  rw [List.all_eq_true] at h ⊢
  exact fun x hx => h x (List.mem_of_mem_drop hx)

/-- The head-strip computation on a fenced payload whose body starts with
an opening brace: either the whole fence line is consumed, or an
alphanumeric residue of a tag beginning `json` survives before the body. -/
theorem headStrip_fence (tag M : List Char)
    (htag : tag.all Char.isAlphanum = true) :
    headStrip (fenceWrap tag ('{' :: M)) = ('{' :: M) ++ '\n' :: fence3 ∨
    ∃ u, u ≠ [] ∧ u.all Char.isAlphanum = true ∧
      headStrip (fenceWrap tag ('{' :: M)) = u ++ '\n' :: (('{' :: M) ++ '\n' :: fence3) := by
  unfold headStrip fenceWrap
  by_cases hj : leadsWith fenceJson
      (fence3 ++ (tag ++ '\n' :: (('{' :: M) ++ '\n' :: fence3))) = true
  · rw [if_pos hj]
    have hj2 : leadsWith ['j', 's', 'o', 'n']
        (tag ++ '\n' :: (('{' :: M) ++ '\n' :: fence3)) = true := by
      have hl := leadsWith_append_left fence3 ['j', 's', 'o', 'n']
        (tag ++ '\n' :: (('{' :: M) ++ '\n' :: fence3))
      rw [show fence3 ++ ['j', 's', 'o', 'n'] = fenceJson from rfl] at hl
      rw [← hl]
      exact hj
    have hj3 : leadsWith ['j', 's', 'o', 'n'] tag = true :=
      leadsWith_alnum_cut ['j', 's', 'o', 'n'] tag '\n' _ (by decide) (by decide) hj2
    obtain ⟨u, rfl⟩ : ∃ u, tag = ['j', 's', 'o', 'n'] ++ u :=
      ⟨tag.drop 4, leadsWith_eq_append _ _ hj3⟩
    have hu : u.all Char.isAlphanum = true := by
      simp only [List.all_append, Bool.and_eq_true] at htag
      exact htag.2
    have hdrop : (fence3 ++ ((['j', 's', 'o', 'n'] ++ u) ++
        '\n' :: (('{' :: M) ++ '\n' :: fence3))).drop 7 =
        u ++ '\n' :: (('{' :: M) ++ '\n' :: fence3) := by
      have hsh : fence3 ++ ((['j', 's', 'o', 'n'] ++ u) ++
          '\n' :: (('{' :: M) ++ '\n' :: fence3)) =
          fenceJson ++ (u ++ '\n' :: (('{' :: M) ++ '\n' :: fence3)) := by
        simp [fence3, fenceJson]
      rw [hsh, show (7 : Nat) = fenceJson.length from rfl]
      exact List.drop_left _ _
    rw [hdrop]
    cases u with
    | nil =>
      left
      rw [List.nil_append]
      rw [List.dropWhile_cons_of_pos (by decide),
        show ('{' :: M) ++ '\n' :: fence3 = '{' :: (M ++ '\n' :: fence3) from rfl,
        List.dropWhile_cons_of_neg (by decide)]
    | cons e u2 =>
      right
      refine ⟨e :: u2, by simp, hu, ?_⟩
      have he : e.isAlphanum = true := by
        rw [List.all_eq_true] at hu
        exact hu e (by simp)
      rw [show (e :: u2) ++ '\n' :: (('{' :: M) ++ '\n' :: fence3) =
        e :: (u2 ++ '\n' :: (('{' :: M) ++ '\n' :: fence3)) from rfl,
        List.dropWhile_cons_of_neg]
      simp only [decide_eq_true_eq]
      exact alnum_ne_lit e '\n' he (by decide)
  · rw [if_neg hj]
    have hf3 : leadsWith fence3
        (fence3 ++ (tag ++ '\n' :: (('{' :: M) ++ '\n' :: fence3))) = true :=
      leadsWith_self_append _ _
    rw [if_pos hf3]
    have hsh : fence3 ++ (tag ++ '\n' :: (('{' :: M) ++ '\n' :: fence3)) =
        (fence3 ++ tag) ++ '\n' :: (('{' :: M) ++ '\n' :: fence3) := by
      simp
    have hfind : findCh '\n'
        (fence3 ++ (tag ++ '\n' :: (('{' :: M) ++ '\n' :: fence3))) =
        some (fence3 ++ tag).length := by
      rw [hsh]
      apply findCh_append_of_not_mem
      intro x hx
      rcases List.mem_append.mp hx with hx1 | hx2
      · have hxb : x = '`' := by simpa [fence3] using hx1
        rw [hxb]
        decide
      · rw [List.all_eq_true] at htag
        exact alnum_ne_lit x '\n' (htag x hx2) (by decide)
    rw [hfind]
    left
    show (fence3 ++ (tag ++ '\n' :: (('{' :: M) ++ '\n' :: fence3))).drop
      ((fence3 ++ tag).length + 1) = ('{' :: M) ++ '\n' :: fence3
    have hsh2 : fence3 ++ (tag ++ '\n' :: (('{' :: M) ++ '\n' :: fence3)) =
        ((fence3 ++ tag) ++ ['\n']) ++ (('{' :: M) ++ '\n' :: fence3) := by
      simp
    have hlen : (fence3 ++ tag).length + 1 = ((fence3 ++ tag) ++ ['\n']).length := by
      simp only [List.length_append, List.length_cons, List.length_nil]
    rw [hsh2, hlen]
    exact List.drop_left _ _

/-- The tail-strip computation: the closing fence (preceded by the
newline the wrapper added) is removed and the trailing newline stripped. -/
theorem tailStrip_pipe (s pre M : List Char)
    (hs : s = pre ++ (('{' :: (M ++ ['}'])) ++ '\n' :: fence3)) :
    tailStrip s = pre ++ ('{' :: (M ++ ['}'])) := by
  subst hs
  have hsh : pre ++ (('{' :: (M ++ ['}'])) ++ '\n' :: fence3) =
      ((pre ++ ('{' :: (M ++ ['}']))) ++ ['\n']) ++ fence3 := by
    simp
  unfold tailStrip
  have htr : trailsWith fence3
      (pre ++ (('{' :: (M ++ ['}'])) ++ '\n' :: fence3)) = true := by
    rw [hsh]
    exact trailsWith_append_self _ _
  rw [if_pos htr, rfindSub_of_suffix fence3 _ (by decide) htr]
  show stripR ((pre ++ (('{' :: (M ++ ['}'])) ++ '\n' :: fence3)).take
    ((pre ++ (('{' :: (M ++ ['}'])) ++ '\n' :: fence3)).length - fence3.length)) =
    pre ++ ('{' :: (M ++ ['}']))
  have hlen : (pre ++ (('{' :: (M ++ ['}'])) ++ '\n' :: fence3)).length -
      fence3.length = ((pre ++ ('{' :: (M ++ ['}']))) ++ ['\n']).length := by
    simp [fence3]
    omega
  rw [hlen, hsh, List.take_left]
  rw [stripR_append_ws _ '\n' (by decide)]
  have hsh3 : pre ++ ('{' :: (M ++ ['}'])) = (pre ++ '{' :: M) ++ ['}'] := by
    simp
  rw [hsh3, stripR_append_nonws _ '}' (by decide), ← hsh3]

/-- Strategy 3 on an alphanumeric-residue line followed by a JSON object
body: the slice from the first `\x7b` to the last `\x7d` is exactly the body. -/
theorem braceSlice_pipe (t M s : List Char)
    (ht : t.all Char.isAlphanum = true)
    (hs : s = t ++ '\n' :: ('{' :: (M ++ ['}']))) :
    braceSlice s = some ('{' :: (M ++ ['}'])) := by
  subst hs
  unfold braceSlice
  have hsh : t ++ '\n' :: ('{' :: (M ++ ['}'])) =
      (t ++ ['\n']) ++ '{' :: (M ++ ['}']) := by
    simp
  have hfind : findCh '{' (t ++ '\n' :: ('{' :: (M ++ ['}']))) =
      some (t ++ ['\n']).length := by
    rw [hsh]
    apply findCh_append_of_not_mem
    intro x hx
    rcases List.mem_append.mp hx with hx1 | hx2
    · rw [List.all_eq_true] at ht
      exact alnum_ne_lit x '{' (ht x hx1) (by decide)
    · have : x = '\n' := by simpa using hx2
      rw [this]
      decide
  have htr : trailsWith ['}'] (t ++ '\n' :: ('{' :: (M ++ ['}']))) = true := by
    rw [show t ++ '\n' :: ('{' :: (M ++ ['}'])) =
      (t ++ '\n' :: '{' :: M) ++ ['}'] by simp]
    exact trailsWith_append_self _ _
  rw [hfind, rfindSub_of_suffix ['}'] _ (by decide) htr]
  have hlt : (t ++ ['\n']).length <
      (t ++ '\n' :: ('{' :: (M ++ ['}']))).length - (['}'] : List Char).length := by
    simp only [List.length_append, List.length_cons, List.length_nil]
    omega
  show (if (t ++ ['\n']).length <
      (t ++ '\n' :: ('{' :: (M ++ ['}']))).length - (['}'] : List Char).length then
      some (((t ++ '\n' :: ('{' :: (M ++ ['}']))).take
        ((t ++ '\n' :: ('{' :: (M ++ ['}']))).length -
          (['}'] : List Char).length + 1)).drop (t ++ ['\n']).length)
    else none) = some ('{' :: (M ++ ['}']))
  rw [if_pos hlt]
  have htake : (t ++ '\n' :: ('{' :: (M ++ ['}']))).length -
      (['}'] : List Char).length + 1 =
      (t ++ '\n' :: ('{' :: (M ++ ['}']))).length := by
    simp only [List.length_append, List.length_cons, List.length_nil]
    omega
  rw [htake, List.take_length, hsh, List.drop_left]

theorem not_pyws_of_alnum (c : Char) (h : c.isAlphanum = true) :
    isPyWs c = false := by
  by_contra hw
  have hw2 : isPyWs c = true := by simpa using hw
  simp only [isPyWs, Bool.or_eq_true, decide_eq_true_eq] at hw2
  rcases hw2 with ((((h1 | h1) | h1) | h1) | h1) | h1 <;> subst h1 <;>
    exact absurd h (by decide)

/-- The whole cascade with the branch conditions spelled out, for a
nonempty input. -/
theorem extract_eval (raw : List Char) (h0 : raw ≠ []) :
    extract_json_from_llm_response raw =
      match parseWhole (pyStrip raw) with
      | some v => some v
      | none =>
        match parseWhole (pyStrip (tailStrip (headStrip (pyStrip raw)))) with
        | some v => some v
        | none =>
          match braceSlice (pyStrip (tailStrip (headStrip (pyStrip raw)))) with
          | some cand =>
            match parseWhole cand with
            | some v => some v
            | none => regexScan (pyStrip (tailStrip (headStrip (pyStrip raw))))
          | none => regexScan (pyStrip (tailStrip (headStrip (pyStrip raw)))) := by
  unfold extract_json_from_llm_response
  rw [if_neg (by simpa [List.isEmpty_iff] using h0)]

/-- Recovery from a fenced rendering of a well-formed object: the fences
are stripped (or, for a tag extending `json`, the residue is bypassed by
strategy 3) and the object is recovered exactly. -/
theorem recover_fenced (kvs : List (List Char × JVal)) (tag : List Char)
    (hwf : wfJ (JVal.jobj kvs) = true) (htag : tag.all Char.isAlphanum = true) :
    extract_json_from_llm_response (fenceWrap tag (render (JVal.jobj kvs))) =
      some (JVal.jobj kvs) := by
  have hM : render (JVal.jobj kvs) = '{' :: (renderMembers kvs ++ ['}']) := rfl
  have hparse : parseWhole ('{' :: (renderMembers kvs ++ ['}'])) =
      some (JVal.jobj kvs) := by
    rw [← hM]
    exact parseWhole_render _ hwf
  rw [hM]
  set M := renderMembers kvs with hMdef
  have hne : fenceWrap tag ('{' :: (M ++ ['}'])) ≠ [] := by
    simp [fenceWrap, fence3]
  rw [extract_eval _ hne]
  have hps : pyStrip (fenceWrap tag ('{' :: (M ++ ['}']))) =
      fenceWrap tag ('{' :: (M ++ ['}'])) := by
    have hsh : fenceWrap tag ('{' :: (M ++ ['}'])) =
        '`' :: (('`' :: '`' :: (tag ++ '\n' ::
          ('{' :: (M ++ ['}']) ++ '\n' :: ['`', '`']))) ++ ['`']) := by
      simp [fenceWrap, fence3]
    rw [hsh, pyStrip_sandwich _ _ _ (by decide) (by decide), ← hsh]
  rw [hps]
  have h1 : parseWhole (fenceWrap tag ('{' :: (M ++ ['}']))) = none :=
    parseWhole_fence3_none _
  rw [h1]
  rcases headStrip_fence tag (M ++ ['}']) htag with hA | ⟨u, hu1, hu2, hB⟩
  · rw [hA]
    rw [tailStrip_pipe _ [] M (by simp)]
    rw [List.nil_append]
    rw [pyStrip_sandwich '{' '}' M (by decide) (by decide)]
    rw [hparse]
  · rw [hB]
    rw [tailStrip_pipe _ (u ++ ['\n']) M (by simp)]
    cases u with
    | nil => exact absurd rfl hu1
    | cons c u2 =>
      have hc : c.isAlphanum = true := by
        rw [List.all_eq_true] at hu2
        exact hu2 c (by simp)
      have hps2 : pyStrip (((c :: u2) ++ ['\n']) ++ ('{' :: (M ++ ['}']))) =
          ((c :: u2) ++ ['\n']) ++ ('{' :: (M ++ ['}'])) := by
        have hsh2 : ((c :: u2) ++ ['\n']) ++ ('{' :: (M ++ ['}'])) =
            c :: ((u2 ++ '\n' :: '{' :: M) ++ ['}']) := by
          simp
        rw [hsh2, pyStrip_sandwich _ _ _ (not_pyws_of_alnum c hc) (by decide),
          ← hsh2]
      rw [hps2]
      have h2 : parseWhole (((c :: u2) ++ ['\n']) ++ ('{' :: (M ++ ['}']))) =
          none :=
        parseWhole_alnum_prefix_none (c :: u2) (M ++ ['}']) _ hu1 hu2 (by simp)
      rw [h2]
      have h3 : braceSlice (((c :: u2) ++ ['\n']) ++ ('{' :: (M ++ ['}']))) =
          some ('{' :: (M ++ ['}'])) :=
        braceSlice_pipe (c :: u2) M _ hu2 (by simp)
      rw [h3]
      dsimp only
      rw [hparse]

/-- Recovery from the plain rendering of a well-formed object: the direct
parse already succeeds. -/
theorem recover_plain (kvs : List (List Char × JVal))
    (hwf : wfJ (JVal.jobj kvs) = true) :
    extract_json_from_llm_response (render (JVal.jobj kvs)) =
      some (JVal.jobj kvs) := by
  have hM : render (JVal.jobj kvs) = '{' :: (renderMembers kvs ++ ['}']) := rfl
  have hparse : parseWhole ('{' :: (renderMembers kvs ++ ['}'])) =
      some (JVal.jobj kvs) := by
    rw [← hM]
    exact parseWhole_render _ hwf
  rw [hM]
  rw [extract_eval _ (by simp)]
  rw [pyStrip_sandwich '{' '}' _ (by decide) (by decide)]
  rw [hparse]

/-- When the cascade reports failure, every one of the four strategies
fails on its input. -/
theorem extract_none_parts (raw : List Char)
    (h : extract_json_from_llm_response raw = none) :
    parseWhole (pyStrip raw) = none ∧
    parseWhole (pyStrip (tailStrip (headStrip (pyStrip raw)))) = none ∧
    (∀ cand, braceSlice (pyStrip (tailStrip (headStrip (pyStrip raw)))) =
      some cand → parseWhole cand = none) ∧
    regexScan (pyStrip (tailStrip (headStrip (pyStrip raw)))) = none := by
  by_cases h0 : raw = []
  · subst h0
    refine ⟨rfl, rfl, ?_, rfl⟩
    intro cand hc
    exact absurd hc (by simp [braceSlice, findCh])
  · rw [extract_eval raw h0] at h
    cases e1 : parseWhole (pyStrip raw) with
    | some v =>
      rw [e1] at h
      exact absurd h (by simp)
    | none =>
      rw [e1] at h
      dsimp only at h
      cases e2 : parseWhole (pyStrip (tailStrip (headStrip (pyStrip raw)))) with
      | some v =>
        rw [e2] at h
        exact absurd h (by simp)
      | none =>
        rw [e2] at h
        dsimp only at h
        cases e3 : braceSlice (pyStrip (tailStrip (headStrip (pyStrip raw)))) with
        | some cand =>
          rw [e3] at h
          dsimp only at h
          cases e4 : parseWhole cand with
          | some v =>
            rw [e4] at h
            exact absurd h (by simp)
          | none =>
            rw [e4] at h
            dsimp only at h
            refine ⟨rfl, rfl, ?_, h⟩
            intro cand2 hc
            injection hc with hc2
            rw [← hc2]
            exact e4
        | none =>
          rw [e3] at h
          dsimp only at h
          refine ⟨rfl, rfl, ?_, h⟩
          intro cand2 hc
          exact absurd hc (by simp)

/-- C6: for every well-formed JSON object and every alphanumeric
code-fence tag, `extract_json_from_llm_response` on the fenced rendering
returns the same object as on the unfenced text, and both recover the
object exactly; and the function returns `none` only when all four
cascade strategies — direct parse, fence-stripped parse,
first-to-last-brace slice, and the brace-balanced scan — fail on their
inputs, as a value-level result rather than an exception. -/
theorem extract_json_fence_and_cascade :
    (∀ (kvs : List (List Char × JVal)) (tag : List Char),
      wfJ (JVal.jobj kvs) = true → tag.all Char.isAlphanum = true →
      extract_json_from_llm_response (fenceWrap tag (render (JVal.jobj kvs))) =
        extract_json_from_llm_response (render (JVal.jobj kvs)) ∧
      extract_json_from_llm_response (render (JVal.jobj kvs)) =
        some (JVal.jobj kvs)) ∧
    (∀ raw : List Char, extract_json_from_llm_response raw = none →
      parseWhole (pyStrip raw) = none ∧
      parseWhole (pyStrip (tailStrip (headStrip (pyStrip raw)))) = none ∧
      (∀ cand, braceSlice (pyStrip (tailStrip (headStrip (pyStrip raw)))) =
        some cand → parseWhole cand = none) ∧
      regexScan (pyStrip (tailStrip (headStrip (pyStrip raw)))) = none) := by
  constructor
  · intro kvs tag hwf htag
    have h1 := recover_fenced kvs tag hwf htag
    have h2 := recover_plain kvs hwf
    exact ⟨h1.trans h2.symm, h2⟩
  · exact extract_none_parts

end Spec2Proof
